import Mathlib

/-!
# Library management system: the lending state machine

A shallow embedding of `src/lib_management_sys_sqlite3.cpp`.

* The three `unordered_map<int, _>` members of `class Library` (`books`, `users`, `issued`) are
  association lists with pairwise distinct keys (`AList`).  Iterating a map is iterating its
  entries; `m[k] = v` is `assign`, an in-place change through a reference `T& x = m[k]` is
  `AList.replace`, `m.erase k` is `AList.erase`.
* The `history` table exists only inside the SQLite file.  It is kept in the state as a table keyed
  by its `issue_id INTEGER PRIMARY KEY` column and is changed by the two SQL statements of the
  source (`INSERT INTO history ...`, `UPDATE history SET ... WHERE issue_id = ...`) and by SQL
  that a typed name brings along (see below).
* Everything the program reads from outside is an argument of the operation: the numbers and lines
  typed by the caller, the clock value `time(0)`, and the replies of the store that the code looks
  at (`sqlite3_prepare_v2(...) == SQLITE_OK`, `get_last_insert_rowid()`, the result of `exec_sql`).
  Replies that the code discards and that only concern the `books`, `users` and `issued` tables of
  the file are left out, since those tables are never read back while the program runs.
* `addUser` and the registration inside `user_request_issue` paste the typed name into the text
  `INSERT INTO users (user_id, name) VALUES (id, 'name');` with `sprintf` and hand it to
  `sqlite3_exec`, which runs every statement of the text.  A name with a single quote ends the
  string literal early, and what follows is run as SQL: the `history` table it leaves behind is an
  argument of the call (`historyAfterUsersInsert`).  The file is taken to hold the schema of
  `init_schema` and nothing else, before and after such a text.  Names too long for the 512-byte
  buffer of `sprintf` overflow it, which is undefined behaviour and outside the model.
* `sqlite3_step` is never looked at by the code: after a step that fails,
  `get_last_insert_rowid()` is the row id of an earlier insert.  The row id is an argument of the
  call and may be any number, used or not.
* `int` and `time_t` values are mathematical integers (`Int`); overflow of these types, which is
  undefined behaviour in C++, is outside the model.  `double avg_rating` is an exact rational.
* `user_request_return` reads `rec.dueDatetime` through the reference `IssuedRecord& rec` after
  `issued.erase(issue_id)`; the model uses the values the record held when the reference was bound.
* A call that never gets past the rating prompt does not return; its result is `none`.
-/

namespace LibrarySystem

/-! ## Entities -/

/-- The C++ `struct Book`; `id` is the inherited `Entity::id`. -/
structure Book where
  id : Int
  title : String
  author : String
  totalCopies : Int
  availableCopies : Int
  avg_rating : ℚ
  total_ratings : Int
deriving DecidableEq

/-- The C++ `struct User`. -/
structure User where
  id : Int
  name : String
  isDefaulter : Bool
  penaltyEnd : Int
deriving DecidableEq

/-- The C++ `struct IssuedRecord`. -/
structure IssuedRecord where
  id : Int
  book_id : Int
  user_id : Int
  issueDatetime : Int
  dueDatetime : Int
deriving DecidableEq

/-- One row of the `history` table, without its key column `issue_id`. -/
structure HistoryRow where
  book_id : Int
  user_id : Int
  title : String
  author : String
  issue_datetime : Int
  return_datetime : Int
  status : String
deriving DecidableEq

/-- The default constructor `User()`. -/
instance : Inhabited User := ⟨⟨0, "", false, 0⟩⟩

/-- The default constructor `IssuedRecord()`. -/
instance : Inhabited IssuedRecord := ⟨⟨0, 0, 0, 0, 0⟩⟩

/-- An `unordered_map<int, V>`. -/
abbrev IntMap (V : Type) := AList (fun _ : Int => V)

/-- The members `books`, `users`, `issued` of `class Library`, and the `history` table. -/
structure Library where
  books : IntMap Book
  users : IntMap User
  issued : IntMap IssuedRecord
  history : IntMap HistoryRow

/-- The library over a new database file: nothing loaded, no history. -/
def Library.empty : Library := ⟨∅, ∅, ∅, ∅⟩

/-- The assignment `m[k] = v`: overwrite the value in place when `k` is present, else add it. -/
def assign {V : Type} (m : IntMap V) (k : Int) (v : V) : IntMap V :=
  if k ∈ m then m.replace k v else m.insert k v

/-- The loan period added to the issue time, `15LL * 24 * 60 * 60` seconds. -/
def loanPeriod : Int := 15 * 24 * 60 * 60

/-- The penalty added to the return time, `7LL * 24 * 60 * 60` seconds. -/
def penaltyPeriod : Int := 7 * 24 * 60 * 60

/-- The test `u.isDefaulter && now < u.penaltyEnd`. -/
def User.isDefaulterAt (u : User) (now : Int) : Bool :=
  u.isDefaulter && decide (now < u.penaltyEnd)

/-- Embedding of `Library::user_has_active_issue`: scan `issued` for a record of this user. -/
def user_has_active_issue (s : Library) (userId : Int) : Bool :=
  s.issued.entries.any (fun p => p.2.user_id == userId)

/-! ## The `history` table -/

/-- The statement `INSERT INTO history (issue_id, ...) VALUES (?, ..., 0, 'issued')`.  `carried` is
false when the store does not carry it out (its prepare or its step fails); a row whose primary key
is already in the table is rejected. -/
def historyInsert (carried : Bool) (issue_id : Int) (row : HistoryRow) (h : IntMap HistoryRow) :
    IntMap HistoryRow :=
  if carried = true ∧ issue_id ∉ h then h.insert issue_id row else h

/-- The statement `UPDATE history SET return_datetime = .., status = '..' WHERE issue_id = ..`,
run through `exec_sql`; `carried` is false when the store does not carry it out. -/
def historyClose (carried : Bool) (issue_id now : Int) (status : String) (h : IntMap HistoryRow) :
    IntMap HistoryRow :=
  if carried = true then
    match h.lookup issue_id with
    | some row => h.replace issue_id { row with return_datetime := now, status := status }
    | none => h
  else h

/-- Whether a typed name stays inside the string literal of `VALUES (%d, '%s')`: it has no single
quote (character 39). -/
def plainName (name : String) : Bool := !(name.toList.contains (Char.ofNat 39))

/-- The `history` table after `exec_sql` has run the text built by
`sprintf(sql, "INSERT INTO users (user_id, name) VALUES (%d, '%s');", id, name.c_str())`.  With a
name without a single quote the text is the one `INSERT INTO users` and the table is untouched;
with any other name the text is what the name makes of it, and `after` is the table that
`sqlite3_exec` leaves, `none` when the text fails to parse or does not touch `history`. -/
def historyAfterUsersInsert (name : String) (after : Option (IntMap HistoryRow))
    (h : IntMap HistoryRow) : IntMap HistoryRow :=
  if plainName name = true then h else after.getD h

/-! ## Catalog and membership operations -/

/-- What the store answers to the `INSERT` of `addBook`: whether `sqlite3_prepare_v2` returned
`SQLITE_OK`, and the value of `get_last_insert_rowid()` after the step. -/
structure InsertReply where
  prepared : Bool
  rowid : Int
deriving DecidableEq

/-- How `addBook` ends: "Invalid number.", "Book added successfully. ID: ..", or without a message
when the statement could not be prepared. -/
inductive AddBookOutcome where
  | invalidNumber
  | added (book_id : Int)
  | notPrepared
deriving DecidableEq

/-- Embedding of `Library::addBook`. -/
def addBook (s : Library) (title author : String) (total : Int) (st : InsertReply) :
    AddBookOutcome × Library :=
  if total ≤ 0 then (.invalidNumber, s)
  else if st.prepared = true then
    let book_id := st.rowid
    (.added book_id,
      { s with books := assign s.books book_id ⟨book_id, title, author, total, total, 0, 0⟩ })
  else (.notPrepared, s)

/-- How `removeBook` and `removeUser` end: "... not found." (NotFound), "Cannot remove; ..."
(Conflict), "... removed.", or without a message when `exec_sql` reports a failure. -/
inductive RemoveOutcome where
  | notFound
  | activeIssue
  | removed
  | notExecuted
deriving DecidableEq

/-- Embedding of `Library::removeBook`; `execOk` is the result of `exec_sql` on the `DELETE`. -/
def removeBook (s : Library) (book_id : Int) (execOk : Bool) : RemoveOutcome × Library :=
  if book_id ∉ s.books then (.notFound, s)
  else if s.issued.entries.any (fun p => p.2.book_id == book_id) = true then (.activeIssue, s)
  else if execOk = true then (.removed, { s with books := s.books.erase book_id })
  else (.notExecuted, s)

/-- How `addUser` ends: "User exists." (Conflict) or "User added.". -/
inductive AddUserOutcome where
  | userExists
  | added
deriving DecidableEq

/-- Embedding of `Library::addUser`; the result of its `exec_sql` is discarded by the code, and
`after` is the `history` table left by that `exec_sql` when the name carries SQL of its own. -/
def addUser (s : Library) (id : Int) (name : String) (after : Option (IntMap HistoryRow)) :
    AddUserOutcome × Library :=
  if id ∈ s.users then (.userExists, s)
  else
    (.added,
      { s with
        users := assign s.users id ⟨id, name, false, 0⟩
        history := historyAfterUsersInsert name after s.history })

/-- Embedding of `Library::removeUser`; `execOk` is the result of `exec_sql` on the `DELETE`. -/
def removeUser (s : Library) (id : Int) (execOk : Bool) : RemoveOutcome × Library :=
  if id ∉ s.users then (.notFound, s)
  else if user_has_active_issue s id = true then (.activeIssue, s)
  else if execOk = true then (.removed, { s with users := s.users.erase id })
  else (.notExecuted, s)

/-! ## Issue -/

/-- What the caller types during `user_request_issue`: the user id, the answer to
"Register? (1=Yes 2=No)" and the name (both read only for an unknown user), and the book id (read
only once the user may borrow). -/
structure IssueInput where
  uid : Int
  ch : Int
  name : String
  book_id : Int
deriving DecidableEq

/-- What the store answers during `user_request_issue`: whether `sqlite3_prepare_v2` of the
`INSERT INTO issued` returned `SQLITE_OK`, the value of `get_last_insert_rowid()` after its step,
whether the `INSERT INTO history` was carried out, and the `history` table left by the `exec_sql`
of the registration branch when the typed name carries SQL of its own. -/
structure IssueStore where
  prepared : Bool
  rowid : Int
  historyInserted : Bool
  afterRegistration : Option (IntMap HistoryRow)
deriving DecidableEq

/-- How `user_request_issue` ends: "Operation cancelled." (NotFound), "You are a defaulter until:
.." (Forbidden), "You already have an active issued book." (Conflict), "Book not found."
(NotFound), "No available copies." (Exhausted), "Issued successfully! Issue ID: .. | Due: ..", or
without a message when the `INSERT INTO issued` could not be prepared. -/
inductive IssueOutcome where
  | cancelled
  | defaulterUntil (penaltyEnd : Int)
  | alreadyIssued
  | bookNotFound
  | noCopies
  | issued (issue_id : Int) (dueTime : Int)
  | notPrepared
deriving DecidableEq

/-- The user bound by `User& u = users[uid]`. -/
def userAt (s : Library) (uid : Int) : User := (s.users.lookup uid).getD default

/-- The book after `b.availableCopies--`. -/
def takeCopy (b : Book) : Book := { b with availableCopies := b.availableCopies - 1 }

/-- The record `IssuedRecord(issue_id, book_id, uid, issueTime, dueTime)` with `issueTime = now`
and `dueTime = issueTime + 15 days`. -/
def newRecord (inp : IssueInput) (now issue_id : Int) : IssuedRecord :=
  let issueTime := now
  let dueTime := issueTime + loanPeriod
  ⟨issue_id, inp.book_id, inp.uid, issueTime, dueTime⟩

/-- The values bound to the `INSERT INTO history` statement; `return_datetime` is `0` and `status`
is `'issued'`. -/
def newHistoryRow (inp : IssueInput) (now : Int) (b : Book) : HistoryRow :=
  ⟨inp.book_id, inp.uid, b.title, b.author, now, 0, "issued"⟩

/-- The registration branch of `user_request_issue`: `users[uid] = User(uid, name)`, then the
`exec_sql` of the `INSERT INTO users` built from the name, whose result is discarded by the code;
`after` is the `history` table left by that `exec_sql` when the name carries SQL of its own. -/
def registerUser (s : Library) (inp : IssueInput) (after : Option (IntMap HistoryRow)) :
    Library :=
  { s with
    users := assign s.users inp.uid ⟨inp.uid, inp.name, false, 0⟩
    history := historyAfterUsersInsert inp.name after s.history }

/-- Embedding of `Library::user_request_issue`; `now` is the value of `time(0)`. -/
def user_request_issue (s : Library) (inp : IssueInput) (now : Int) (st : IssueStore) :
    IssueOutcome × Library :=
  if inp.uid ∉ s.users ∧ inp.ch ≠ 1 then (.cancelled, s)
  else
    let s1 : Library := if inp.uid ∈ s.users then s else registerUser s inp st.afterRegistration
    let u : User := userAt s1 inp.uid
    if u.isDefaulterAt now = true then (.defaulterUntil u.penaltyEnd, s1)
    else if user_has_active_issue s1 inp.uid = true then (.alreadyIssued, s1)
    else
      match s1.books.lookup inp.book_id with
      | none => (.bookNotFound, s1)
      | some b =>
        if b.availableCopies ≤ 0 then (.noCopies, s1)
        else
          let b1 : Book := takeCopy b
          let s2 : Library := { s1 with books := s1.books.replace inp.book_id b1 }
          if st.prepared = true then
            let issue_id := st.rowid
            (.issued issue_id (newRecord inp now issue_id).dueDatetime,
              { s2 with
                issued := assign s2.issued issue_id (newRecord inp now issue_id)
                history := historyInsert st.historyInserted issue_id (newHistoryRow inp now b1)
                  s2.history })
          else (.notPrepared, s2)

/-! ## Return -/

/-- What the caller types during `user_request_return`: the user id and the integers entered at
the rating prompt, in order. -/
structure ReturnInput where
  uid : Int
  ratings : List Int
deriving DecidableEq

/-- The rating prompt `cin >> rating; while (rating < 1 || rating > 5) cin >> rating;`: the first
entered value within 1..5, and `none` when no such value is ever entered (the loop does not end). -/
def readRating : List Int → Option Int
  | [] => none
  | r :: rest => if r < 1 ∨ r > 5 then readRating rest else some r

/-- The lines `b.availableCopies++; if (b.availableCopies > b.totalCopies) b.availableCopies =
b.totalCopies;`. -/
def returnCopy (b : Book) : Book :=
  let b1 : Book := { b with availableCopies := b.availableCopies + 1 }
  if b1.availableCopies > b1.totalCopies then { b1 with availableCopies := b1.totalCopies } else b1

/-- The lines `b.total_ratings++; b.avg_rating = ((b.avg_rating * (b.total_ratings - 1)) + rating)
/ b.total_ratings;`. -/
def recordRating (b : Book) (rating : Int) : Book :=
  let b1 : Book := { b with total_ratings := b.total_ratings + 1 }
  { b1 with
    avg_rating := ((b1.avg_rating * ((b1.total_ratings - 1 : Int) : ℚ)) + (rating : ℚ))
      / (b1.total_ratings : ℚ) }

/-- How `user_request_return` ends: "User not found." (NotFound), "No active issued books."
(NoActiveIssue), "Book returned successfully. Thank you!", or "Overdue return! You are marked as
defaulter. Penalty until: ..". -/
inductive ReturnOutcome where
  | userNotFound
  | noActiveIssue
  | returned
  | overdue (penaltyEnd : Int)
deriving DecidableEq

/-- The key found by the scan `for (auto& p : issued) if (p.second.user_id == uid) { issue_id =
p.first; break; }`, starting from `issue_id = -1`. -/
def findIssueId (s : Library) (uid : Int) : Int :=
  match s.issued.entries.find? (fun p => p.2.user_id == uid) with
  | some p => p.1
  | none => -1

/-- The record bound by `IssuedRecord& rec = issued[issue_id]`. -/
def recordAt (s : Library) (issue_id : Int) : IssuedRecord :=
  (s.issued.lookup issue_id).getD default

/-- The second half of `user_request_return`, from "Remove from issued" on; `r` is the record
bound by `IssuedRecord& rec = issued[issue_id]`, with the values it holds before the erase. -/
def closeIssue (s : Library) (uid issue_id : Int) (r : IssuedRecord) (now : Int)
    (historyUpdated : Bool) : ReturnOutcome × Library :=
  let s1 : Library := { s with issued := s.issued.erase issue_id }
  if now > r.dueDatetime then
    let u : User := userAt s1 uid
    let u1 : User := { u with isDefaulter := true, penaltyEnd := now + penaltyPeriod }
    (.overdue u1.penaltyEnd,
      { s1 with
        users := assign s1.users uid u1
        history := historyClose historyUpdated issue_id now "defaulter" s1.history })
  else
    (.returned,
      { s1 with history := historyClose historyUpdated issue_id now "returned" s1.history })

/-- Embedding of `Library::user_request_return`; `now` is the value of `time(0)`, `historyUpdated` whether the
final `UPDATE history` was carried out.  The result is `none` when the rating prompt never receives
a value within 1..5, in which case the function does not return. -/
def user_request_return (s : Library) (inp : ReturnInput) (now : Int) (historyUpdated : Bool) :
    Option (ReturnOutcome × Library) :=
  if inp.uid ∉ s.users then some (.userNotFound, s)
  else
    let issue_id := findIssueId s inp.uid
    if issue_id = -1 then some (.noActiveIssue, s)
    else
      let r : IssuedRecord := recordAt s issue_id
      match s.books.lookup r.book_id with
      | some b =>
        match readRating inp.ratings with
        | some rating =>
          let b1 := recordRating (returnCopy b) rating
          some (closeIssue { s with books := s.books.replace r.book_id b1 } inp.uid issue_id r
            now historyUpdated)
        | none => none
      | none => some (closeIssue s inp.uid issue_id r now historyUpdated)

/-! ## Listings -/

/-- Embedding of `Library::listDefaulters`; `now` is the value of `time(0)`.  For every user with
`u.isDefaulter && now < u.penaltyEnd`, in the order of the scan of `users`, the user that is
printed and the entries of `issued` printed below it, those with `user_id == u.user_id()`. -/
def listDefaulters (s : Library) (now : Int) : List (User × List (Σ _ : Int, IssuedRecord)) :=
  (s.users.entries.filter (fun p => p.2.isDefaulterAt now)).map
    (fun p => (p.2, s.issued.entries.filter (fun q => q.2.user_id == p.2.id)))

/-! ## Runs -/

/-- One call of a library operation, with everything it reads from outside. -/
inductive Op where
  | addBook (title author : String) (total : Int) (st : InsertReply)
  | removeBook (book_id : Int) (execOk : Bool)
  | addUser (id : Int) (name : String) (after : Option (IntMap HistoryRow))
  | removeUser (id : Int) (execOk : Bool)
  | requestIssue (inp : IssueInput) (now : Int) (st : IssueStore)
  | requestReturn (inp : ReturnInput) (now : Int) (historyUpdated : Bool)
deriving DecidableEq

/-- The state after one call; `none` when the call does not return. -/
def applyOp (s : Library) : Op → Option Library
  | .addBook title author total st => some (addBook s title author total st).2
  | .removeBook book_id execOk => some (removeBook s book_id execOk).2
  | .addUser id name after => some (addUser s id name after).2
  | .removeUser id execOk => some (removeUser s id execOk).2
  | .requestIssue inp now st => some (user_request_issue s inp now st).2
  | .requestReturn inp now historyUpdated =>
    (user_request_return s inp now historyUpdated).map Prod.snd

/-- The state after a sequence of calls, each started when the one before has returned. -/
def run (s : Library) : List Op → Option Library
  | [] => some s
  | op :: ops => (applyOp s op).bind fun s1 => run s1 ops

/-- The states the program can be in, starting from the empty library. -/
def Reachable (s : Library) : Prop :=
  ∃ ops : List Op, run Library.empty ops = some s

/-- The clock value `time(0)` of a call, for the two operations that read the clock. -/
def Op.time : Op → Option Int
  | .requestIssue _ now _ => some now
  | .requestReturn _ now _ => some now
  | _ => none

/-- The clock values of a sequence of calls, in the order of the calls. -/
def timestamps (ops : List Op) : List Int := ops.filterMap Op.time

/-- Whether the ids that the store hands out during a call are fresh: the id under which
`addBook` stores the new book is not a key of `books`, and the id under which
`user_request_issue` stores the new record is not a key of `issued`.  A call that stores nothing
under a new id passes. -/
def freshIds (s : Library) : Op → Bool
  | .addBook title author total st =>
    match (addBook s title author total st).1 with
    | .added book_id => decide (book_id ∉ s.books)
    | _ => true
  | .requestIssue inp now st =>
    match (user_request_issue s inp now st).1 with
    | .issued issue_id _ => decide (issue_id ∉ s.issued)
    | _ => true
  | _ => true

/-- Whether the store accepts the `INSERT INTO issued` of a call, if the call gets that far. -/
def insertAccepted (s : Library) : Op → Bool
  | .requestIssue inp now st =>
    match (user_request_issue s inp now st).1 with
    | .notPrepared => false
    | _ => true
  | _ => true

/-- Whether `P` holds of every call of a run, each taken at the state in which it starts. -/
def holdsAlong (P : Library → Op → Bool) (s : Library) : List Op → Bool
  | [] => true
  | op :: ops =>
    P s op && (match applyOp s op with
      | some s1 => holdsAlong P s1 ops
      | none => true)

/-- The book after the rating updates of successive returns rated `rs`, in this order. -/
def recordRatings (b : Book) (rs : List Int) : Book := rs.foldl recordRating b

/-- Every book of the catalog has `0 ≤ availableCopies ≤ totalCopies`. -/
def BooksInRange (s : Library) : Prop :=
  ∀ k b, s.books.lookup k = some b → 0 ≤ b.availableCopies ∧ b.availableCopies ≤ b.totalCopies

/-- No two distinct issue ids of the active-issue map carry the same `user_id`. -/
def OneIssuePerUser (s : Library) : Prop :=
  ∀ i j r r', s.issued.lookup i = some r → s.issued.lookup j = some r' →
    r.user_id = r'.user_id → i = j


/-- Every active record references a book of the catalog. -/
def IssuedBooksInCatalog (s : Library) : Prop :=
  ∀ p ∈ s.issued.entries, p.2.book_id ∈ s.books

/-- Every active record belongs to a registered user. -/
def IssuedUsersRegistered (s : Library) : Prop :=
  ∀ p ∈ s.issued.entries, p.2.user_id ∈ s.users

/-- The outcomes of `user_request_issue` that are errors of the kinds NotFound ("Operation
cancelled.", "Book not found."), Forbidden, Conflict and Exhausted. -/
def IssueOutcome.isError : IssueOutcome → Bool
  | .cancelled => true
  | .defaulterUntil _ => true
  | .alreadyIssued => true
  | .bookNotFound => true
  | .noCopies => true
  | .issued _ _ => false
  | .notPrepared => false

/-- The outcomes of `user_request_return` that are errors of the kinds NotFound ("User not
found.") and NoActiveIssue. -/
def ReturnOutcome.isError : ReturnOutcome → Bool
  | .userNotFound => true
  | .noActiveIssue => true
  | .returned => false
  | .overdue _ => false

/-- Every user is stored under the id it carries: `users[id].user_id() == id`. -/
def UserIdsAgree (s : Library) : Prop :=
  ∀ k u, s.users.lookup k = some u → u.id = k

/-- No user who is a defaulter at time `now` (`isDefaulter && now < penaltyEnd`) has an active
record. -/
def NoDefaulterHolds (s : Library) (now : Int) : Prop :=
  ∀ k u, s.users.lookup k = some u → u.isDefaulterAt now = true →
    user_has_active_issue s k = false

/-- The number of active records that reference book `k`. -/
def activeCount (s : Library) (k : Int) : Nat :=
  (s.issued.entries.filter (fun p => p.2.book_id == k)).length

/-- Every copy of every book is on the shelf or lent: `availableCopies` plus the number of active
records of the book is `totalCopies`. -/
def CopiesAccounted (s : Library) : Prop :=
  ∀ k b, s.books.lookup k = some b → b.availableCopies + (activeCount s k : Int) = b.totalCopies
/-! ## Sample runs -/

/-- A run that adds a book with two copies, registers two users and lends a copy to each. -/
def sampleOps : List Op :=
  [.addBook "T" "A" 2 ⟨true, 1⟩, .addUser 1 "ann" none, .addUser 2 "bob" none,
   .requestIssue ⟨1, 0, "", 1⟩ 0 ⟨true, 1, true, none⟩,
   .requestIssue ⟨2, 0, "", 1⟩ 1 ⟨true, 2, true, none⟩]

/-- The state after `sampleOps`. -/
def sampleState : Library := (run Library.empty sampleOps).getD Library.empty

/-- A run that adds a book with two copies and registers one user. -/
def readyOps : List Op := [.addBook "T" "A" 2 ⟨true, 1⟩, .addUser 1 "ann" none]

/-- The state after `readyOps`. -/
def readyState : Library := (run Library.empty readyOps).getD Library.empty

/-- The run `readyOps` followed by the issue of book 1 to user 1 at time 0 under issue id 1. -/
def issuedOps : List Op := readyOps ++ [.requestIssue ⟨1, 0, "", 1⟩ 0 ⟨true, 1, true, none⟩]

/-- The state after `issuedOps`: user 1 holds book 1, due at 1296000. -/
def issuedState : Library := (run Library.empty issuedOps).getD Library.empty

/-- The run `issuedOps` followed by a late return at time 2000000, rated 4. -/
def lateOps : List Op := issuedOps ++ [.requestReturn ⟨1, [4]⟩ 2000000 true]

/-- The state after `lateOps`: user 1 is flagged, with `penaltyEnd = 2604800`. -/
def lateState : Library := (run Library.empty lateOps).getD Library.empty

/-- The run `lateOps` followed by a new issue to user 1 at time 3000000, after the penalty has
lapsed, under issue id 2. -/
def lapsedOps : List Op := lateOps ++ [.requestIssue ⟨1, 0, "", 1⟩ 3000000 ⟨true, 2, true, none⟩]

/-- The state after `lapsedOps`: user 1 still carries the flag and holds book 1 again, due at
4296000. -/
def lapsedState : Library := (run Library.empty lapsedOps).getD Library.empty

/-- The store rejecting the `INSERT INTO issued`: `sqlite3_prepare_v2` does not return
`SQLITE_OK`, so no row id is read and no history insert is made. -/
def insertRejected : IssueStore := ⟨false, 0, false, none⟩

/-- The run `readyOps` followed by a request of user 1 for book 1 whose insert the store
rejects. -/
def rejectedOps : List Op := readyOps ++ [.requestIssue ⟨1, 0, "", 1⟩ 0 insertRejected]

/-- The state after `rejectedOps`. -/
def rejectedState : Library := (run Library.empty rejectedOps).getD Library.empty

/-- The run `lateOps` followed by the removal of user 1. -/
def removedOps : List Op := lateOps ++ [.removeUser 1 true]

/-- The state after `removedOps`. -/
def removedState : Library := (run Library.empty removedOps).getD Library.empty

/-- The run `lapsedOps` followed by a second late return of user 1, at time 4296001. -/
def relapsedOps : List Op := lapsedOps ++ [.requestReturn ⟨1, [3]⟩ 4296001 true]

/-- The state after `relapsedOps`: user 1 is flagged with `penaltyEnd = 4900801`. -/
def relapsedState : Library := (run Library.empty relapsedOps).getD Library.empty

/-- The request of an unknown user 2 who registers under a name that ends the string literal and
brings a statement of its own, and asks for the unknown book 5.  The text handed to `exec_sql` is
`INSERT INTO users (user_id, name) VALUES (2, 'x'); DELETE FROM history; SELECT ('');`. -/
def intruder : IssueInput := ⟨2, 1, "x\x27); DELETE FROM history; SELECT (\x27", 5⟩

/-- The store at the request of `intruder`: the pasted `DELETE FROM history` leaves the table
empty. -/
def intruderReply : IssueStore := ⟨true, 2, true, some ∅⟩
/-! ## Facts about the maps -/

section MapFacts

variable {V : Type}

theorem kreplace_cons_eq (k : Int) (v w : V) (l : List (Σ _ : Int, V)) :
    List.kreplace k v (⟨k, w⟩ :: l) = ⟨k, v⟩ :: l := by
  unfold List.kreplace
  rw [List.lookmap_cons_some]
  simp

theorem kreplace_cons_ne {k : Int} (v : V) {e : Σ _ : Int, V} (l : List (Σ _ : Int, V))
    (h : k ≠ e.1) : List.kreplace k v (e :: l) = e :: List.kreplace k v l := by
  unfold List.kreplace
  rw [List.lookmap_cons_none]
  simp [h]

theorem dlookup_kreplace_self (k : Int) (v : V) :
    ∀ l : List (Σ _ : Int, V), k ∈ l.keys → List.dlookup k (List.kreplace k v l) = some v
  | [], h => by simp at h
  | ⟨k', w⟩ :: l, h => by
    by_cases hk : k = k'
    · subst hk
      rw [kreplace_cons_eq, List.dlookup_cons_eq]
    · rw [kreplace_cons_ne v l hk, List.dlookup_cons_ne _ _ hk]
      apply dlookup_kreplace_self k v l
      simp only [List.keys_cons, List.mem_cons] at h
      exact h.resolve_left hk

theorem dlookup_kreplace_ne {k k' : Int} (v : V) (h : k' ≠ k) :
    ∀ l : List (Σ _ : Int, V), List.dlookup k' (List.kreplace k v l) = List.dlookup k' l
  | [] => by simp [List.kreplace]
  | ⟨k'', w⟩ :: l => by
    by_cases hk : k = k''
    · subst hk
      rw [kreplace_cons_eq, List.dlookup_cons_ne _ _ h, List.dlookup_cons_ne _ _ h]
    · rw [kreplace_cons_ne v l hk]
      by_cases hk' : k' = k''
      · subst hk'
        simp
      · rw [List.dlookup_cons_ne _ _ hk', List.dlookup_cons_ne _ _ hk']
        exact dlookup_kreplace_ne v h l

theorem lookup_replace_self {m : IntMap V} {k : Int} (v : V) (h : k ∈ m) :
    (m.replace k v).lookup k = some v :=
  dlookup_kreplace_self k v m.entries h

theorem lookup_replace_ne (m : IntMap V) {k k' : Int} (v : V) (h : k' ≠ k) :
    (m.replace k v).lookup k' = m.lookup k' :=
  dlookup_kreplace_ne v h m.entries

theorem lookup_assign_self (m : IntMap V) (k : Int) (v : V) :
    (assign m k v).lookup k = some v := by
  unfold assign
  split
  · next h => exact lookup_replace_self v h
  · exact AList.lookup_insert m

theorem lookup_assign_ne (m : IntMap V) {k k' : Int} (v : V) (h : k' ≠ k) :
    (assign m k v).lookup k' = m.lookup k' := by
  unfold assign
  split
  · exact lookup_replace_ne m v h
  · exact AList.lookup_insert_ne h

theorem lookup_assign (m : IntMap V) (k k' : Int) (v : V) :
    (assign m k v).lookup k' = if k' = k then some v else m.lookup k' := by
  split
  · next h => rw [h]; exact lookup_assign_self m k v
  · next h => exact lookup_assign_ne m v h

theorem lookup_replace (m : IntMap V) (k k' : Int) (v : V) :
    (m.replace k v).lookup k' = if k' = k ∧ k ∈ m then some v else m.lookup k' := by
  by_cases h : k' = k
  · subst h
    by_cases hm : k' ∈ m
    · simp [hm, lookup_replace_self v hm]
    · have : m.replace k' v = m := by
        apply AList.ext
        exact List.kreplace_of_forall_not k' v (List.not_mem_keys.1 hm)
      simp [hm, this]
  · simp [h, lookup_replace_ne m v h]

theorem lookup_erase (m : IntMap V) (k k' : Int) :
    (m.erase k).lookup k' = if k' = k then none else m.lookup k' := by
  split
  · next h => rw [h]; exact AList.lookup_erase k m
  · next h => exact AList.lookup_erase_ne h

/-- A scan `for (auto& p : m) if (P(p.second)) ...` finds something exactly when some key is bound
to a value satisfying `P`. -/
theorem any_entries_iff (m : IntMap V) (P : V → Bool) :
    m.entries.any (fun p => P p.2) = true ↔ ∃ k v, m.lookup k = some v ∧ P v = true := by
  rw [List.any_eq_true]
  constructor
  · rintro ⟨⟨k, v⟩, hmem, hP⟩
    exact ⟨k, v, AList.mem_lookup_iff.2 hmem, hP⟩
  · rintro ⟨k, v, hl, hP⟩
    exact ⟨⟨k, v⟩, AList.mem_lookup_iff.1 hl, hP⟩

end MapFacts

/-! ## The paths through `user_request_issue` and `user_request_return` -/

theorem mem_assign_self {V : Type} (m : IntMap V) (k : Int) (v : V) : k ∈ assign m k v := by
  rw [← AList.lookup_isSome, lookup_assign_self]
  rfl

theorem mem_registerUser (s : Library) (inp : IssueInput) (after : Option (IntMap HistoryRow)) :
    inp.uid ∈ (registerUser s inp after).users :=
  mem_assign_self _ _ _

theorem issue_cancelled (s : Library) (inp : IssueInput) (now : Int) (st : IssueStore)
    (h : inp.uid ∉ s.users) (hch : inp.ch ≠ 1) :
    user_request_issue s inp now st = (.cancelled, s) := by
  unfold user_request_issue
  rw [if_pos ⟨h, hch⟩]

theorem issue_register (s : Library) (inp : IssueInput) (now : Int) (st : IssueStore)
    (h : inp.uid ∉ s.users) (hch : inp.ch = 1) :
    user_request_issue s inp now st =
      user_request_issue (registerUser s inp st.afterRegistration) inp now st := by
  have hm : inp.uid ∈ (registerUser s inp st.afterRegistration).users := mem_assign_self _ _ _
  unfold user_request_issue
  simp only [h, hch, hm, not_true_eq_false, not_false_eq_true, ne_eq, and_false, and_true,
    if_false, if_true]

theorem issue_defaulter (s : Library) (inp : IssueInput) (now : Int) (st : IssueStore)
    (h : inp.uid ∈ s.users) (hd : (userAt s inp.uid).isDefaulterAt now = true) :
    user_request_issue s inp now st = (.defaulterUntil (userAt s inp.uid).penaltyEnd, s) := by
  unfold user_request_issue
  simp only [h, not_true_eq_false, false_and, if_false, if_true, Bool.false_eq_true, hd]

theorem issue_alreadyIssued (s : Library) (inp : IssueInput) (now : Int) (st : IssueStore)
    (h : inp.uid ∈ s.users) (hd : ¬ (userAt s inp.uid).isDefaulterAt now = true)
    (ha : user_has_active_issue s inp.uid = true) :
    user_request_issue s inp now st = (.alreadyIssued, s) := by
  unfold user_request_issue
  simp only [h, not_true_eq_false, false_and, if_false, if_true, Bool.false_eq_true, hd, ha]

theorem issue_bookNotFound (s : Library) (inp : IssueInput) (now : Int) (st : IssueStore)
    (h : inp.uid ∈ s.users) (hd : ¬ (userAt s inp.uid).isDefaulterAt now = true)
    (ha : ¬ user_has_active_issue s inp.uid = true) (hb : s.books.lookup inp.book_id = none) :
    user_request_issue s inp now st = (.bookNotFound, s) := by
  unfold user_request_issue
  simp only [h, not_true_eq_false, false_and, if_false, if_true, Bool.false_eq_true, hd, ha, hb]

theorem issue_noCopies (s : Library) (inp : IssueInput) (now : Int) (st : IssueStore)
    (h : inp.uid ∈ s.users) (hd : ¬ (userAt s inp.uid).isDefaulterAt now = true)
    (ha : ¬ user_has_active_issue s inp.uid = true) (b : Book)
    (hb : s.books.lookup inp.book_id = some b) (hav : b.availableCopies ≤ 0) :
    user_request_issue s inp now st = (.noCopies, s) := by
  unfold user_request_issue
  simp only [h, not_true_eq_false, false_and, if_false, if_true, Bool.false_eq_true, hd, ha, hb, hav]

theorem issue_notPrepared (s : Library) (inp : IssueInput) (now : Int) (st : IssueStore)
    (h : inp.uid ∈ s.users) (hd : ¬ (userAt s inp.uid).isDefaulterAt now = true)
    (ha : ¬ user_has_active_issue s inp.uid = true) (b : Book)
    (hb : s.books.lookup inp.book_id = some b) (hav : ¬ b.availableCopies ≤ 0)
    (hp : ¬ st.prepared = true) :
    user_request_issue s inp now st =
      (.notPrepared, { s with books := s.books.replace inp.book_id (takeCopy b) }) := by
  unfold user_request_issue
  simp only [h, not_true_eq_false, false_and, if_false, if_true, Bool.false_eq_true, hd, ha, hb, hav, hp]

theorem issue_issued (s : Library) (inp : IssueInput) (now : Int) (st : IssueStore)
    (h : inp.uid ∈ s.users) (hd : ¬ (userAt s inp.uid).isDefaulterAt now = true)
    (ha : ¬ user_has_active_issue s inp.uid = true) (b : Book)
    (hb : s.books.lookup inp.book_id = some b) (hav : ¬ b.availableCopies ≤ 0)
    (hp : st.prepared = true) :
    user_request_issue s inp now st =
      (.issued st.rowid (now + loanPeriod),
        { s with
          books := s.books.replace inp.book_id (takeCopy b)
          issued := assign s.issued st.rowid (newRecord inp now st.rowid)
          history := historyInsert st.historyInserted st.rowid (newHistoryRow inp now (takeCopy b))
            s.history }) := by
  unfold user_request_issue
  simp only [h, not_true_eq_false, false_and, if_false, if_true, Bool.false_eq_true, hd, ha, hb, hav, hp]
  rfl


theorem return_userNotFound (s : Library) (inp : ReturnInput) (now : Int) (hu : Bool)
    (h : inp.uid ∉ s.users) :
    user_request_return s inp now hu = some (.userNotFound, s) := by
  unfold user_request_return
  rw [if_pos h]

theorem return_noActiveIssue (s : Library) (inp : ReturnInput) (now : Int) (hu : Bool)
    (h : inp.uid ∈ s.users) (hi : findIssueId s inp.uid = -1) :
    user_request_return s inp now hu = some (.noActiveIssue, s) := by
  unfold user_request_return
  simp only [h, not_true_eq_false, if_false, hi, if_true]

theorem return_rated (s : Library) (inp : ReturnInput) (now : Int) (hu : Bool)
    (h : inp.uid ∈ s.users) (hi : findIssueId s inp.uid ≠ -1) (b : Book)
    (hb : s.books.lookup (recordAt s (findIssueId s inp.uid)).book_id = some b) (rating : Int)
    (hr : readRating inp.ratings = some rating) :
    user_request_return s inp now hu =
      some (closeIssue
        { s with
          books := (s.books.replace (recordAt s (findIssueId s inp.uid)).book_id
            (recordRating (returnCopy b) rating)) }
        inp.uid (findIssueId s inp.uid) (recordAt s (findIssueId s inp.uid)) now hu) := by
  unfold user_request_return
  simp only [h, not_true_eq_false, if_false, hi, hb, hr]

theorem return_blocked (s : Library) (inp : ReturnInput) (now : Int) (hu : Bool)
    (h : inp.uid ∈ s.users) (hi : findIssueId s inp.uid ≠ -1) (b : Book)
    (hb : s.books.lookup (recordAt s (findIssueId s inp.uid)).book_id = some b)
    (hr : readRating inp.ratings = none) :
    user_request_return s inp now hu = none := by
  unfold user_request_return
  simp only [h, not_true_eq_false, if_false, hi, hb, hr]

theorem return_noBook (s : Library) (inp : ReturnInput) (now : Int) (hu : Bool)
    (h : inp.uid ∈ s.users) (hi : findIssueId s inp.uid ≠ -1)
    (hb : s.books.lookup (recordAt s (findIssueId s inp.uid)).book_id = none) :
    user_request_return s inp now hu =
      some (closeIssue s inp.uid (findIssueId s inp.uid) (recordAt s (findIssueId s inp.uid))
        now hu) := by
  unfold user_request_return
  simp only [h, not_true_eq_false, if_false, hi, hb]

/-! ## What each operation changes -/

theorem user_has_active_issue_iff (s : Library) (uid : Int) :
    user_has_active_issue s uid = true ↔ ∃ i r, s.issued.lookup i = some r ∧ r.user_id = uid := by
  unfold user_has_active_issue
  rw [any_entries_iff s.issued (fun r => r.user_id == uid)]
  simp

theorem user_has_active_issue_false (s : Library) (uid : Int)
    (h : ¬ user_has_active_issue s uid = true) (i : Int) (r : IssuedRecord)
    (hr : s.issued.lookup i = some r) : r.user_id ≠ uid :=
  fun hu => h ((user_has_active_issue_iff s uid).2 ⟨i, r, hr, hu⟩)

/-- On a registered user `user_request_issue` leaves the state as it is, or takes a copy of the
requested book and, when the insert is prepared, adds the record and the history row. -/
theorem issue_effect_of_mem (s : Library) (inp : IssueInput) (now : Int) (st : IssueStore)
    (h : inp.uid ∈ s.users) :
    (user_request_issue s inp now st).2 = s ∨
    ∃ b, s.books.lookup inp.book_id = some b ∧ 0 < b.availableCopies ∧
      ¬ user_has_active_issue s inp.uid = true ∧
      ((user_request_issue s inp now st).2 =
          { s with books := s.books.replace inp.book_id (takeCopy b) } ∨
        (user_request_issue s inp now st).2 =
          { s with
            books := s.books.replace inp.book_id (takeCopy b)
            issued := assign s.issued st.rowid (newRecord inp now st.rowid)
            history := historyInsert st.historyInserted st.rowid
              (newHistoryRow inp now (takeCopy b)) s.history }) := by
  by_cases hd : (userAt s inp.uid).isDefaulterAt now = true
  · left; rw [issue_defaulter s inp now st h hd]
  by_cases ha : user_has_active_issue s inp.uid = true
  · left; rw [issue_alreadyIssued s inp now st h hd ha]
  cases hb : s.books.lookup inp.book_id with
  | none => left; rw [issue_bookNotFound s inp now st h hd ha hb]
  | some b =>
    by_cases hav : b.availableCopies ≤ 0
    · left; rw [issue_noCopies s inp now st h hd ha b hb hav]
    · right
      refine ⟨b, rfl, by omega, ha, ?_⟩
      by_cases hp : st.prepared = true
      · right; rw [issue_issued s inp now st h hd ha b hb hav hp]
      · left; rw [issue_notPrepared s inp now st h hd ha b hb hav hp]

/-- The books after `user_request_issue`: untouched, or one book with a copy taken. -/
theorem user_request_issue_books (s : Library) (inp : IssueInput) (now : Int) (st : IssueStore) :
    (user_request_issue s inp now st).2.books = s.books ∨
    ∃ b, s.books.lookup inp.book_id = some b ∧ 0 < b.availableCopies ∧
      (user_request_issue s inp now st).2.books = s.books.replace inp.book_id (takeCopy b) := by
  by_cases hu : inp.uid ∈ s.users
  · rcases issue_effect_of_mem s inp now st hu with h | ⟨b, hb, hav, -, h | h⟩
    · left; rw [h]
    · right; exact ⟨b, hb, hav, by rw [h]⟩
    · right; exact ⟨b, hb, hav, by rw [h]⟩
  · by_cases hch : inp.ch = 1
    · rw [issue_register s inp now st hu hch]
      rcases issue_effect_of_mem _ inp now st (mem_registerUser s inp _) with
        h | ⟨b, hb, hav, -, h | h⟩
      · left; rw [h]; rfl
      · right; exact ⟨b, hb, hav, by rw [h]; rfl⟩
      · right; exact ⟨b, hb, hav, by rw [h]; rfl⟩
    · left; rw [issue_cancelled s inp now st hu hch]

/-- The active issues after `user_request_issue`: untouched, or one record assigned for a user
who had none. -/
theorem user_request_issue_issued (s : Library) (inp : IssueInput) (now : Int) (st : IssueStore) :
    (user_request_issue s inp now st).2.issued = s.issued ∨
    (¬ user_has_active_issue s inp.uid = true ∧
      (user_request_issue s inp now st).2.issued =
        assign s.issued st.rowid (newRecord inp now st.rowid)) := by
  by_cases hu : inp.uid ∈ s.users
  · rcases issue_effect_of_mem s inp now st hu with h | ⟨b, -, -, ha, h | h⟩
    · left; rw [h]
    · left; rw [h]
    · right; exact ⟨ha, by rw [h]⟩
  · by_cases hch : inp.ch = 1
    · rw [issue_register s inp now st hu hch]
      rcases issue_effect_of_mem _ inp now st (mem_registerUser s inp _) with
        h | ⟨b, -, -, ha, h | h⟩
      · left; rw [h]; rfl
      · left; rw [h]; rfl
      · right; exact ⟨ha, by rw [h]; rfl⟩
    · left; rw [issue_cancelled s inp now st hu hch]

theorem closeIssue_books (s : Library) (uid issue_id : Int) (r : IssuedRecord) (now : Int)
    (hu : Bool) : (closeIssue s uid issue_id r now hu).2.books = s.books := by
  unfold closeIssue
  split <;> rfl

theorem closeIssue_issued (s : Library) (uid issue_id : Int) (r : IssuedRecord) (now : Int)
    (hu : Bool) : (closeIssue s uid issue_id r now hu).2.issued = s.issued.erase issue_id := by
  unfold closeIssue
  split <;> rfl

/-- How a call of `user_request_return` that returns came about. -/
theorem return_effect (s s' : Library) (inp : ReturnInput) (now : Int) (hu : Bool)
    (o : ReturnOutcome) (h : user_request_return s inp now hu = some (o, s')) :
    s' = s ∨
    (∃ b rating, s.books.lookup (recordAt s (findIssueId s inp.uid)).book_id = some b ∧
      (o, s') = closeIssue
        { s with
          books := (s.books.replace (recordAt s (findIssueId s inp.uid)).book_id
            (recordRating (returnCopy b) rating)) }
        inp.uid (findIssueId s inp.uid) (recordAt s (findIssueId s inp.uid)) now hu) ∨
    (o, s') = closeIssue s inp.uid (findIssueId s inp.uid) (recordAt s (findIssueId s inp.uid))
      now hu := by
  by_cases hm : inp.uid ∈ s.users
  · by_cases hi : findIssueId s inp.uid = -1
    · rw [return_noActiveIssue s inp now hu hm hi] at h
      simp only [Option.some.injEq, Prod.mk.injEq] at h
      left; exact h.2.symm
    · cases hb : s.books.lookup (recordAt s (findIssueId s inp.uid)).book_id with
      | none =>
        rw [return_noBook s inp now hu hm hi hb] at h
        simp only [Option.some.injEq] at h
        right; right; exact h.symm
      | some b =>
        cases hr : readRating inp.ratings with
        | none =>
          rw [return_blocked s inp now hu hm hi b hb hr] at h
          simp at h
        | some rating =>
          rw [return_rated s inp now hu hm hi b hb rating hr] at h
          simp only [Option.some.injEq] at h
          right; left; exact ⟨b, rating, rfl, h.symm⟩
  · rw [return_userNotFound s inp now hu hm] at h
    simp only [Option.some.injEq, Prod.mk.injEq] at h
    left; exact h.2.symm

/-- The books after `user_request_return`: untouched, or one book given back and rated. -/
theorem user_request_return_books (s s' : Library) (inp : ReturnInput) (now : Int) (hu : Bool)
    (o : ReturnOutcome) (h : user_request_return s inp now hu = some (o, s')) :
    s'.books = s.books ∨
    ∃ k b rating, s.books.lookup k = some b ∧
      s'.books = s.books.replace k (recordRating (returnCopy b) rating) := by
  rcases return_effect s s' inp now hu o h with h | ⟨b, rating, hb, h⟩ | h
  · left; rw [h]
  · right
    refine ⟨_, b, rating, hb, ?_⟩
    have := congrArg (fun p => p.2.books) h
    simp only [closeIssue_books] at this
    exact this
  · left
    have := congrArg (fun p => p.2.books) h
    simp only [closeIssue_books] at this
    exact this

/-- The active issues after `user_request_return`: untouched, or one key erased. -/
theorem user_request_return_issued (s s' : Library) (inp : ReturnInput) (now : Int) (hu : Bool)
    (o : ReturnOutcome) (h : user_request_return s inp now hu = some (o, s')) :
    s'.issued = s.issued ∨ ∃ k, s'.issued = s.issued.erase k := by
  rcases return_effect s s' inp now hu o h with h | ⟨b, rating, -, h⟩ | h
  · left; rw [h]
  · right
    have := congrArg (fun p => p.2.issued) h
    simp only [closeIssue_issued] at this
    exact ⟨_, this⟩
  · right
    have := congrArg (fun p => p.2.issued) h
    simp only [closeIssue_issued] at this
    exact ⟨_, this⟩

/-! ## Invariants of runs -/

theorem run_invariant (P : Library → Prop)
    (step : ∀ s s' op, applyOp s op = some s' → P s → P s') :
    ∀ (ops : List Op) (s s' : Library), run s ops = some s' → P s → P s'
  | [], s, s', h, hP => by
    simp only [run, Option.some.injEq] at h
    rw [← h]; exact hP
  | op :: ops, s, s', h, hP => by
    simp only [run, Option.bind_eq_some] at h
    obtain ⟨s1, h1, h2⟩ := h
    exact run_invariant P step ops s1 s' h2 (step s s1 op h1 hP)

theorem BooksInRange.replace {s : Library} (h : BooksInRange s) (k : Int) (b : Book)
    (hb : 0 ≤ b.availableCopies ∧ b.availableCopies ≤ b.totalCopies) (s' : Library)
    (hs : s'.books = s.books.replace k b) : BooksInRange s' := by
  intro k' b' hl
  rw [hs, lookup_replace] at hl
  split at hl
  · simp only [Option.some.injEq] at hl
    rw [← hl]; exact hb
  · exact h k' b' hl

theorem BooksInRange.of_books_eq {s s' : Library} (h : BooksInRange s) (hs : s'.books = s.books) :
    BooksInRange s' := by
  intro k b hl
  rw [hs] at hl
  exact h k b hl

theorem returnCopy_inRange (b : Book)
    (h : 0 ≤ b.availableCopies ∧ b.availableCopies ≤ b.totalCopies) (rating : Int) :
    0 ≤ (recordRating (returnCopy b) rating).availableCopies ∧
      (recordRating (returnCopy b) rating).availableCopies ≤
        (recordRating (returnCopy b) rating).totalCopies := by
  unfold recordRating returnCopy
  simp only
  split
  · simp only; omega
  · simp only; omega

theorem applyOp_booksInRange (s s' : Library) (op : Op) (h : applyOp s op = some s')
    (hs : BooksInRange s) : BooksInRange s' := by
  cases op with
  | addBook title author total st =>
    simp only [applyOp, Option.some.injEq] at h
    subst h
    unfold addBook
    split
    · exact hs
    · next htot =>
      split
      · intro k b hl
        simp only [lookup_assign] at hl
        split at hl
        · simp only [Option.some.injEq] at hl
          rw [← hl]; simp only; omega
        · exact hs k b hl
      · exact hs
  | removeBook book_id execOk =>
    simp only [applyOp, Option.some.injEq] at h
    subst h
    unfold removeBook
    split
    · exact hs
    · split
      · exact hs
      · split
        · intro k b hl
          simp only [lookup_erase] at hl
          split at hl
          · simp at hl
          · exact hs k b hl
        · exact hs
  | addUser id name after =>
    simp only [applyOp, Option.some.injEq] at h
    subst h
    unfold addUser
    split
    · exact hs
    · exact hs.of_books_eq rfl
  | removeUser id execOk =>
    simp only [applyOp, Option.some.injEq] at h
    subst h
    unfold removeUser
    split
    · exact hs
    · split
      · exact hs
      · split
        · exact hs.of_books_eq rfl
        · exact hs
  | requestIssue inp now st =>
    simp only [applyOp, Option.some.injEq] at h
    subst h
    rcases user_request_issue_books s inp now st with heq | ⟨b, hb, hav, heq⟩
    · exact hs.of_books_eq heq
    · have hb' := hs _ b hb
      exact hs.replace inp.book_id _
        ⟨by simp only [takeCopy]; omega, by simp only [takeCopy]; omega⟩ _ heq
  | requestReturn inp now hu =>
    simp only [applyOp, Option.map_eq_some', Prod.exists, exists_eq_right] at h
    obtain ⟨o, h⟩ := h
    rcases user_request_return_books s s' inp now hu o h with heq | ⟨k, b, rating, hb, heq⟩
    · exact hs.of_books_eq heq
    · exact hs.replace k _ (returnCopy_inRange b (hs k b hb) rating) _ heq

theorem booksInRange_empty : BooksInRange Library.empty := by
  intro k b hl
  simp [Library.empty] at hl

theorem OneIssuePerUser.of_issued_eq {s s' : Library} (h : OneIssuePerUser s)
    (hs : s'.issued = s.issued) : OneIssuePerUser s' := by
  intro i j r r' hi hj
  rw [hs] at hi hj
  exact h i j r r' hi hj

theorem OneIssuePerUser.erase {s s' : Library} (h : OneIssuePerUser s) (k : Int)
    (hs : s'.issued = s.issued.erase k) : OneIssuePerUser s' := by
  intro i j r r' hi hj
  rw [hs, lookup_erase] at hi hj
  split at hi
  · simp at hi
  · split at hj
    · simp at hj
    · exact h i j r r' hi hj

theorem OneIssuePerUser.assign {s s' : Library} (h : OneIssuePerUser s) (k : Int)
    (r : IssuedRecord) (hfree : ¬ user_has_active_issue s r.user_id = true)
    (hs : s'.issued = LibrarySystem.assign s.issued k r) : OneIssuePerUser s' := by
  intro i j r1 r2 hi hj hu
  rw [hs, lookup_assign] at hi hj
  split at hi
  · next hik =>
    split at hj
    · next hjk => rw [hik, hjk]
    · simp only [Option.some.injEq] at hi
      rw [← hi] at hu
      exact absurd hu.symm (user_has_active_issue_false s _ hfree j r2 hj)
  · split at hj
    · simp only [Option.some.injEq] at hj
      rw [← hj] at hu
      exact absurd hu (user_has_active_issue_false s _ hfree i r1 hi)
    · exact h i j r1 r2 hi hj hu

theorem applyOp_oneIssuePerUser (s s' : Library) (op : Op) (h : applyOp s op = some s')
    (hs : OneIssuePerUser s) : OneIssuePerUser s' := by
  cases op with
  | addBook title author total st =>
    simp only [applyOp, Option.some.injEq] at h
    subst h
    unfold addBook
    split
    · exact hs
    · split
      · exact hs.of_issued_eq rfl
      · exact hs
  | removeBook book_id execOk =>
    simp only [applyOp, Option.some.injEq] at h
    subst h
    unfold removeBook
    split
    · exact hs
    · split
      · exact hs
      · split
        · exact hs.of_issued_eq rfl
        · exact hs
  | addUser id name after =>
    simp only [applyOp, Option.some.injEq] at h
    subst h
    unfold addUser
    split
    · exact hs
    · exact hs.of_issued_eq rfl
  | removeUser id execOk =>
    simp only [applyOp, Option.some.injEq] at h
    subst h
    unfold removeUser
    split
    · exact hs
    · split
      · exact hs
      · split
        · exact hs.of_issued_eq rfl
        · exact hs
  | requestIssue inp now st =>
    simp only [applyOp, Option.some.injEq] at h
    subst h
    rcases user_request_issue_issued s inp now st with heq | ⟨hfree, heq⟩
    · exact hs.of_issued_eq heq
    · exact hs.assign st.rowid (newRecord inp now st.rowid) hfree heq
  | requestReturn inp now hu =>
    simp only [applyOp, Option.map_eq_some', Prod.exists, exists_eq_right] at h
    obtain ⟨o, h⟩ := h
    rcases user_request_return_issued s s' inp now hu o h with heq | ⟨k, heq⟩
    · exact hs.of_issued_eq heq
    · exact hs.erase k heq

theorem oneIssuePerUser_empty : OneIssuePerUser Library.empty := by
  intro i j r r' hi
  simp [Library.empty] at hi

theorem assign_entries_of_not_mem {V : Type} (m : IntMap V) (k : Int) (v : V) (h : k ∉ m) :
    (assign m k v).entries = ⟨k, v⟩ :: m.entries := by
  unfold assign
  rw [if_neg h]
  exact AList.insert_entries_of_neg h

theorem loanPeriod_eq : loanPeriod = 1296000 := by decide

theorem penaltyPeriod_eq : penaltyPeriod = 604800 := by decide

theorem lookup_of_mem_entries {V : Type} (m : IntMap V) (p : Σ _ : Int, V) (h : p ∈ m.entries) :
    m.lookup p.1 = some p.2 :=
  AList.mem_lookup_iff.2 (by cases p; exact h)

theorem mem_entries_of_lookup {V : Type} (m : IntMap V) (k : Int) (v : V)
    (h : m.lookup k = some v) : (⟨k, v⟩ : Σ _ : Int, V) ∈ m.entries :=
  AList.mem_lookup_iff.1 h

theorem mem_of_lookup {V : Type} (m : IntMap V) (k : Int) (v : V) (h : m.lookup k = some v) :
    k ∈ m := by
  rw [← AList.lookup_isSome, h]; rfl

/-- When the scan of `user_request_return` does not end on `-1`, its result is the key of a record
of the user. -/
theorem findIssueId_found (s : Library) (uid : Int) (h : findIssueId s uid ≠ -1) :
    ∃ r, s.issued.lookup (findIssueId s uid) = some r ∧ r.user_id = uid := by
  unfold findIssueId at h ⊢
  cases hf : s.issued.entries.find? (fun p => p.2.user_id == uid) with
  | none => simp [hf] at h
  | some p =>
    simp only
    refine ⟨p.2, lookup_of_mem_entries _ p (List.mem_of_find?_eq_some hf), ?_⟩
    have := List.find?_some hf
    simpa using this

/-- The scan of `user_request_return` ends on `-1` for a user without a record. -/
theorem findIssueId_none (s : Library) (uid : Int) (h : ¬ user_has_active_issue s uid = true) :
    findIssueId s uid = -1 := by
  unfold findIssueId
  have : s.issued.entries.find? (fun p => p.2.user_id == uid) = none := by
    rw [List.find?_eq_none]
    intro p hp hq
    apply h
    unfold user_has_active_issue
    rw [List.any_eq_true]
    exact ⟨p, hp, hq⟩
  rw [this]

theorem recordAt_of_lookup (s : Library) (i : Int) (r : IssuedRecord)
    (h : s.issued.lookup i = some r) : recordAt s i = r := by
  unfold recordAt
  rw [h]; rfl

theorem closeIssue_late (x : Library) (uid i : Int) (r : IssuedRecord) (now : Int) (hu : Bool)
    (h : now > r.dueDatetime) :
    closeIssue x uid i r now hu =
      (.overdue (now + penaltyPeriod),
        { x with
          issued := x.issued.erase i
          users := assign x.users uid
            { userAt x uid with isDefaulter := true, penaltyEnd := now + penaltyPeriod }
          history := historyClose hu i now "defaulter" x.history }) := by
  unfold closeIssue
  simp only [h, if_true]
  rfl

theorem closeIssue_onTime (x : Library) (uid i : Int) (r : IssuedRecord) (now : Int) (hu : Bool)
    (h : ¬ now > r.dueDatetime) :
    closeIssue x uid i r now hu =
      (.returned,
        { x with
          issued := x.issued.erase i
          history := historyClose hu i now "returned" x.history }) := by
  unfold closeIssue
  simp only [h, if_false]

/-- A call of `user_request_return` that gets past its two refusals gives a copy back (when the
book is still in the catalog) and then closes the issue found by the scan. -/
theorem return_success_effect (s s' : Library) (inp : ReturnInput) (now : Int) (hu : Bool)
    (o : ReturnOutcome) (h : user_request_return s inp now hu = some (o, s'))
    (hok : o ≠ .userNotFound ∧ o ≠ .noActiveIssue) :
    inp.uid ∈ s.users ∧ findIssueId s inp.uid ≠ -1 ∧
    ∃ x : Library, x.users = s.users ∧ x.issued = s.issued ∧ x.history = s.history ∧
      (o, s') = closeIssue x inp.uid (findIssueId s inp.uid) (recordAt s (findIssueId s inp.uid))
        now hu ∧
      ((s.books.lookup (recordAt s (findIssueId s inp.uid)).book_id = none ∧ x.books = s.books) ∨
        ∃ b rating, s.books.lookup (recordAt s (findIssueId s inp.uid)).book_id = some b ∧
          readRating inp.ratings = some rating ∧
          x.books = s.books.replace (recordAt s (findIssueId s inp.uid)).book_id
            (recordRating (returnCopy b) rating)) := by
  by_cases hm : inp.uid ∈ s.users
  · by_cases hi : findIssueId s inp.uid = -1
    · rw [return_noActiveIssue s inp now hu hm hi] at h
      simp only [Option.some.injEq, Prod.mk.injEq] at h
      exact absurd h.1.symm hok.2
    · refine ⟨hm, hi, ?_⟩
      cases hb : s.books.lookup (recordAt s (findIssueId s inp.uid)).book_id with
      | none =>
        rw [return_noBook s inp now hu hm hi hb] at h
        simp only [Option.some.injEq] at h
        exact ⟨s, rfl, rfl, rfl, h.symm, Or.inl ⟨rfl, rfl⟩⟩
      | some b =>
        cases hr : readRating inp.ratings with
        | none =>
          rw [return_blocked s inp now hu hm hi b hb hr] at h
          simp at h
        | some rating =>
          rw [return_rated s inp now hu hm hi b hb rating hr] at h
          simp only [Option.some.injEq] at h
          exact ⟨{ s with
              books := (s.books.replace (recordAt s (findIssueId s inp.uid)).book_id
                (recordRating (returnCopy b) rating)) },
            rfl, rfl, rfl, h.symm, Or.inr ⟨b, rating, rfl, rfl, rfl⟩⟩
  · rw [return_userNotFound s inp now hu hm] at h
    simp only [Option.some.injEq, Prod.mk.injEq] at h
    exact absurd h.1.symm hok.1

theorem historyClose_lookup_ne (c : Bool) (i j now : Int) (status : String)
    (h : IntMap HistoryRow) (hj : j ≠ i) :
    (historyClose c i now status h).lookup j = h.lookup j := by
  unfold historyClose
  split
  · split
    · exact lookup_replace_ne _ _ hj
    · rfl
  · rfl

/-- On a registered user the outcome of `user_request_issue` is decided by the checks in the order
of the source. -/
theorem issue_outcome_of_mem (s : Library) (inp : IssueInput) (now : Int) (st : IssueStore)
    (h : inp.uid ∈ s.users) :
    ((userAt s inp.uid).isDefaulterAt now = true ∧
      user_request_issue s inp now st = (.defaulterUntil (userAt s inp.uid).penaltyEnd, s)) ∨
    (¬ (userAt s inp.uid).isDefaulterAt now = true ∧
      ∀ p, (user_request_issue s inp now st).1 ≠ .defaulterUntil p) := by
  by_cases hd : (userAt s inp.uid).isDefaulterAt now = true
  · left; exact ⟨hd, issue_defaulter s inp now st h hd⟩
  right
  refine ⟨hd, ?_⟩
  by_cases ha : user_has_active_issue s inp.uid = true
  · rw [issue_alreadyIssued s inp now st h hd ha]; simp
  cases hb : s.books.lookup inp.book_id with
  | none => rw [issue_bookNotFound s inp now st h hd ha hb]; simp
  | some b =>
    by_cases hav : b.availableCopies ≤ 0
    · rw [issue_noCopies s inp now st h hd ha b hb hav]; simp
    · by_cases hp : st.prepared = true
      · rw [issue_issued s inp now st h hd ha b hb hav hp]; simp
      · rw [issue_notPrepared s inp now st h hd ha b hb hav hp]; simp

theorem issue_users_of_mem (s : Library) (inp : IssueInput) (now : Int) (st : IssueStore)
    (h : inp.uid ∈ s.users) : (user_request_issue s inp now st).2.users = s.users := by
  rcases issue_effect_of_mem s inp now st h with h1 | ⟨b, -, -, -, h1 | h1⟩ <;> rw [h1]

/-- A registration under a name without a single quote leaves the `history` table alone. -/
theorem registerUser_history (s : Library) (inp : IssueInput) (after : Option (IntMap HistoryRow))
    (h : plainName inp.name = true) : (registerUser s inp after).history = s.history := by
  unfold registerUser historyAfterUsersInsert
  simp only [h, if_true]

/-- A registration under a name that brings SQL along: in the state after `issuedOps`, whose
history holds the open row of issue 1, the request of `intruder` ends with "Book not found.", user
2 is registered, and the history is what the pasted statement left. -/
theorem registration_runs_pasted_sql :
    plainName intruder.name = false ∧
    issuedState.history.entries = [⟨1, ⟨1, 1, "T", "A", 0, 0, "issued"⟩⟩] ∧
    (user_request_issue issuedState intruder 5 intruderReply).1 = .bookNotFound ∧
    (2 : Int) ∈ (user_request_issue issuedState intruder 5 intruderReply).2.users ∧
    (user_request_issue issuedState intruder 5 intruderReply).2.history.entries = [] :=
  ⟨by decide, by decide, by decide, by decide, by decide⟩

/-- What is known when `user_request_issue` ends with "Issued successfully". -/
theorem issue_issued_inv (s s1 : Library) (inp : IssueInput) (now : Int) (st : IssueStore)
    (iid due : Int) (h : user_request_issue s inp now st = (.issued iid due, s1)) :
    ∃ (x : Library) (b : Book), x.books = s.books ∧ x.issued = s.issued ∧
      (inp.uid ∈ s.users ∨ plainName inp.name = true → x.history = s.history) ∧
      inp.uid ∈ x.users ∧
      (∀ k, k ≠ inp.uid → x.users.lookup k = s.users.lookup k) ∧
      ¬ (userAt x inp.uid).isDefaulterAt now = true ∧
      ¬ user_has_active_issue s inp.uid = true ∧
      s.books.lookup inp.book_id = some b ∧ 0 < b.availableCopies ∧ st.prepared = true ∧
      iid = st.rowid ∧ due = now + loanPeriod ∧
      s1 = { x with
        books := s.books.replace inp.book_id (takeCopy b)
        issued := assign s.issued st.rowid (newRecord inp now st.rowid)
        history := historyInsert st.historyInserted st.rowid
          (newHistoryRow inp now (takeCopy b)) x.history } := by
  have key : ∀ x : Library, inp.uid ∈ x.users →
      user_request_issue x inp now st = (.issued iid due, s1) →
      ∃ b : Book, ¬ (userAt x inp.uid).isDefaulterAt now = true ∧
        ¬ user_has_active_issue x inp.uid = true ∧
        x.books.lookup inp.book_id = some b ∧ 0 < b.availableCopies ∧ st.prepared = true ∧
        iid = st.rowid ∧ due = now + loanPeriod ∧
        s1 = { x with
          books := x.books.replace inp.book_id (takeCopy b)
          issued := assign x.issued st.rowid (newRecord inp now st.rowid)
          history := historyInsert st.historyInserted st.rowid
            (newHistoryRow inp now (takeCopy b)) x.history } := by
    intro x hx hres
    by_cases hd : (userAt x inp.uid).isDefaulterAt now = true
    · rw [issue_defaulter x inp now st hx hd] at hres; simp at hres
    by_cases ha : user_has_active_issue x inp.uid = true
    · rw [issue_alreadyIssued x inp now st hx hd ha] at hres; simp at hres
    cases hb : x.books.lookup inp.book_id with
    | none => rw [issue_bookNotFound x inp now st hx hd ha hb] at hres; simp at hres
    | some b =>
      by_cases hav : b.availableCopies ≤ 0
      · rw [issue_noCopies x inp now st hx hd ha b hb hav] at hres; simp at hres
      · by_cases hp : st.prepared = true
        · rw [issue_issued x inp now st hx hd ha b hb hav hp] at hres
          simp only [Prod.mk.injEq, IssueOutcome.issued.injEq] at hres
          exact ⟨b, hd, ha, rfl, by omega, hp, hres.1.1.symm, hres.1.2.symm, hres.2.symm⟩
        · rw [issue_notPrepared x inp now st hx hd ha b hb hav hp] at hres; simp at hres
  by_cases hu : inp.uid ∈ s.users
  · obtain ⟨b, h1, h2, h3, h4, h5, h6, h7, h8⟩ := key s hu h
    exact ⟨s, b, rfl, rfl, fun _ => rfl, hu, fun _ _ => rfl, h1, h2, h3, h4, h5, h6, h7, h8⟩
  · by_cases hch : inp.ch = 1
    · rw [issue_register s inp now st hu hch] at h
      obtain ⟨b, h1, h2, h3, h4, h5, h6, h7, h8⟩ := key _ (mem_registerUser s inp _) h
      refine ⟨registerUser s inp st.afterRegistration, b, rfl, rfl, ?_, mem_registerUser s inp _,
        fun k hk => lookup_assign_ne _ _ hk, h1, h2, h3, h4, h5, h6, h7, h8⟩
      intro hcase
      rcases hcase with hm | hp
      · exact absurd hm hu
      · exact registerUser_history s inp _ hp
    · rw [issue_cancelled s inp now st hu hch] at h; simp at h

/-- After a successful issue the record found by the return scan for that user is the new one. -/
theorem record_after_issue (issued : IntMap IssuedRecord) (uid k i : Int) (rec r : IssuedRecord)
    (hfree : ∀ j q, issued.lookup j = some q → q.user_id ≠ uid)
    (hr : (assign issued k rec).lookup i = some r) (hu : r.user_id = uid) : i = k ∧ r = rec := by
  rw [lookup_assign] at hr
  split at hr
  · next hik =>
    simp only [Option.some.injEq] at hr
    exact ⟨hik, hr.symm⟩
  · exact absurd hu (hfree i r hr)

theorem recordRating_total (b : Book) (r : Int) :
    (recordRating b r).total_ratings = b.total_ratings + 1 := rfl

theorem recordRating_avg (b : Book) (r : Int) :
    (recordRating b r).avg_rating =
      (b.avg_rating * (b.total_ratings : ℚ) + (r : ℚ)) / ((b.total_ratings : ℚ) + 1) := by
  unfold recordRating
  simp only
  push_cast
  ring_nf

/-- The running average times the count is the sum of the ratings recorded so far. -/
theorem recordRatings_sum (rs : List Int) :
    ∀ (b : Book) (n : Nat) (S : Int), b.total_ratings = n → b.avg_rating * (n : ℚ) = (S : ℚ) →
      (recordRatings b rs).total_ratings = ((n + rs.length : Nat) : Int) ∧
      (recordRatings b rs).avg_rating * ((n + rs.length : Nat) : ℚ) = ((S + rs.sum : Int) : ℚ) := by
  induction rs with
  | nil =>
    intro b n S hn hS
    simp [recordRatings, hn, hS]
  | cons r rs ih =>
    intro b n S hn hS
    have hstep := ih (recordRating b r) (n + 1) (S + r)
      (by rw [recordRating_total, hn]; push_cast; ring)
      (by
        rw [recordRating_avg, hn]
        have hpos : ((n : ℚ) + 1) ≠ 0 := by positivity
        push_cast
        field_simp
        rw [hS])
    simp only [recordRatings, List.foldl_cons, List.length_cons, List.sum_cons] at hstep ⊢
    refine ⟨?_, ?_⟩
    · rw [hstep.1]; push_cast; ring
    · have h2 := hstep.2
      have e1 : ((n + 1 + rs.length : Nat) : ℚ) = ((n + (rs.length + 1) : Nat) : ℚ) := by
        push_cast; ring
      have e2 : ((S + r + rs.sum : Int) : ℚ) = ((S + (r + rs.sum) : Int) : ℚ) := by
        push_cast; ring
      rw [← e1, ← e2]; exact h2

theorem mem_assign {V : Type} (m : IntMap V) (k k' : Int) (v : V) :
    k' ∈ assign m k v ↔ k' = k ∨ k' ∈ m := by
  rw [← AList.lookup_isSome, lookup_assign, ← AList.lookup_isSome]
  split
  · next h => simp [h]
  · next h => simp [h]

theorem closeIssue_mem_users (x : Library) (uid i : Int) (r : IssuedRecord) (now : Int)
    (hu : Bool) (k : Int) (h : k ∈ x.users) : k ∈ (closeIssue x uid i r now hu).2.users := by
  unfold closeIssue
  split
  · exact (mem_assign _ _ _ _).2 (Or.inr h)
  · exact h

/-- The records of a user in the active-issue map, as the scans of the source meet them. -/
theorem mem_userRecords (s : Library) (uid j : Int) (q : IssuedRecord)
    (hq : s.issued.lookup j = some q) (hu : q.user_id = uid) :
    (⟨j, q⟩ : Σ _ : Int, IssuedRecord) ∈
      s.issued.entries.filter (fun p => p.2.user_id == uid) := by
  rw [List.mem_filter]
  exact ⟨mem_entries_of_lookup _ _ _ hq, by simp [hu]⟩

/-- After the return of a user's only record the user has no record left. -/
theorem no_active_issue_after_erase (s : Library) (uid i : Int) (r : IssuedRecord)
    (hone : (s.issued.entries.filter (fun p => p.2.user_id == uid)).length = 1)
    (hr : s.issued.lookup i = some r) (hru : r.user_id = uid) (s1 : Library)
    (hs1 : s1.issued = s.issued.erase i) : ¬ user_has_active_issue s1 uid = true := by
  intro h
  obtain ⟨j, q, hq, hqu⟩ := (user_has_active_issue_iff s1 uid).1 h
  rw [hs1, lookup_erase] at hq
  split at hq
  · simp at hq
  · next hji =>
    obtain ⟨p, hp⟩ := List.length_eq_one.1 hone
    have h1 := mem_userRecords s uid i r hr hru
    have h2 := mem_userRecords s uid j q hq hqu
    rw [hp, List.mem_singleton] at h1 h2
    have : (⟨j, q⟩ : Σ _ : Int, IssuedRecord) = ⟨i, r⟩ := by rw [h1, h2]
    exact hji (congrArg Sigma.fst this)

theorem returnCopy_available (b : Book) (rating : Int) :
    (recordRating (returnCopy b) rating).availableCopies =
      if b.availableCopies + 1 > b.totalCopies then b.totalCopies else b.availableCopies + 1 := by
  unfold recordRating returnCopy
  simp only
  split <;> rfl

/-- Under `OneIssuePerUser` the scan for the records of a user meets at most one entry. -/
theorem userRecords_length_le_one (s : Library) (h : OneIssuePerUser s) (uid : Int) :
    (s.issued.entries.filter (fun p => p.2.user_id == uid)).length ≤ 1 := by
  have hnd : (s.issued.entries.filter (fun p => p.2.user_id == uid)).Nodup :=
    (s.issued.nodupKeys.nodup).sublist (List.filter_sublist _)
  have hall : ∀ p ∈ s.issued.entries.filter (fun p => p.2.user_id == uid),
      ∀ q ∈ s.issued.entries.filter (fun p => p.2.user_id == uid), p = q := by
    intro p hp q hq
    rw [List.mem_filter] at hp hq
    have hpu : p.2.user_id = uid := by simpa using hp.2
    have hqu : q.2.user_id = uid := by simpa using hq.2
    have hk : p.1 = q.1 := h p.1 q.1 p.2 q.2 (lookup_of_mem_entries _ p hp.1)
      (lookup_of_mem_entries _ q hq.1) (by rw [hpu, hqu])
    exact s.issued.nodupKeys.eq_of_fst_eq hp.1 hq.1 hk
  cases hl : s.issued.entries.filter (fun p => p.2.user_id == uid) with
  | nil => simp
  | cons a l =>
    cases l with
    | nil => simp
    | cons b l =>
      rw [hl] at hnd hall
      have hab : a = b := hall a (by simp) b (by simp)
      rw [hab] at hnd
      simp at hnd


/-! ## Errors, removals and what active records refer to -/

/-- Every call of `user_request_issue` first settles on a state `x` (the state before the call,
or that state with the caller registered) and then either ends in an error at `x`, or takes a copy
of the requested book and, when the insert is prepared, adds the record and the history row. -/
theorem issue_shape (s : Library) (inp : IssueInput) (now : Int) (st : IssueStore) :
    ∃ x : Library, x.books = s.books ∧ x.issued = s.issued ∧
      (inp.uid ∈ s.users ∨ inp.ch ≠ 1 ∨ plainName inp.name = true → x.history = s.history) ∧
      ((x = s ∧ (inp.uid ∈ s.users ∨ inp.ch ≠ 1)) ∨
        (inp.uid ∉ s.users ∧ inp.ch = 1 ∧ x = registerUser s inp st.afterRegistration)) ∧
      (((user_request_issue s inp now st).1.isError = true ∧
          (user_request_issue s inp now st).2 = x) ∨
        ∃ b, s.books.lookup inp.book_id = some b ∧ 0 < b.availableCopies ∧ inp.uid ∈ x.users ∧
          ¬ (userAt x inp.uid).isDefaulterAt now = true ∧
          ¬ user_has_active_issue s inp.uid = true ∧
          ((¬ st.prepared = true ∧ user_request_issue s inp now st =
              (.notPrepared, { x with books := s.books.replace inp.book_id (takeCopy b) })) ∨
            (st.prepared = true ∧ user_request_issue s inp now st =
              (.issued st.rowid (now + loanPeriod),
                { x with
                  books := s.books.replace inp.book_id (takeCopy b)
                  issued := assign s.issued st.rowid (newRecord inp now st.rowid)
                  history := historyInsert st.historyInserted st.rowid
                    (newHistoryRow inp now (takeCopy b)) x.history })))) := by
  have key : ∀ x : Library, inp.uid ∈ x.users →
      (((user_request_issue x inp now st).1.isError = true ∧
          (user_request_issue x inp now st).2 = x) ∨
        ∃ b, x.books.lookup inp.book_id = some b ∧ 0 < b.availableCopies ∧ inp.uid ∈ x.users ∧
          ¬ (userAt x inp.uid).isDefaulterAt now = true ∧
          ¬ user_has_active_issue x inp.uid = true ∧
          ((¬ st.prepared = true ∧ user_request_issue x inp now st =
              (.notPrepared, { x with books := x.books.replace inp.book_id (takeCopy b) })) ∨
            (st.prepared = true ∧ user_request_issue x inp now st =
              (.issued st.rowid (now + loanPeriod),
                { x with
                  books := x.books.replace inp.book_id (takeCopy b)
                  issued := assign x.issued st.rowid (newRecord inp now st.rowid)
                  history := historyInsert st.historyInserted st.rowid
                    (newHistoryRow inp now (takeCopy b)) x.history })))) := by
    intro x hx
    by_cases hd : (userAt x inp.uid).isDefaulterAt now = true
    · left; rw [issue_defaulter x inp now st hx hd]; exact ⟨rfl, rfl⟩
    by_cases ha : user_has_active_issue x inp.uid = true
    · left; rw [issue_alreadyIssued x inp now st hx hd ha]; exact ⟨rfl, rfl⟩
    cases hb : x.books.lookup inp.book_id with
    | none => left; rw [issue_bookNotFound x inp now st hx hd ha hb]; exact ⟨rfl, rfl⟩
    | some b =>
      by_cases hav : b.availableCopies ≤ 0
      · left; rw [issue_noCopies x inp now st hx hd ha b hb hav]; exact ⟨rfl, rfl⟩
      · right
        refine ⟨b, rfl, by omega, hx, hd, ha, ?_⟩
        by_cases hp : st.prepared = true
        · right; exact ⟨hp, issue_issued x inp now st hx hd ha b hb hav hp⟩
        · left; exact ⟨hp, issue_notPrepared x inp now st hx hd ha b hb hav hp⟩
  by_cases hu : inp.uid ∈ s.users
  · exact ⟨s, rfl, rfl, fun _ => rfl, Or.inl ⟨rfl, Or.inl hu⟩, key s hu⟩
  · by_cases hch : inp.ch = 1
    · refine ⟨registerUser s inp st.afterRegistration, rfl, rfl, ?_, Or.inr ⟨hu, hch, rfl⟩, ?_⟩
      · intro hcase
        rcases hcase with hm | hne | hp
        · exact absurd hm hu
        · exact absurd hch hne
        · exact registerUser_history s inp _ hp
      · rw [issue_register s inp now st hu hch]
        exact key _ (mem_registerUser s inp _)
    · refine ⟨s, rfl, rfl, fun _ => rfl, Or.inl ⟨rfl, Or.inr hch⟩, Or.inl ?_⟩
      rw [issue_cancelled s inp now st hu hch]
      exact ⟨rfl, rfl⟩

theorem mem_entries_erase {V : Type} (m : IntMap V) (k : Int) (p : Σ _ : Int, V)
    (h : p ∈ (m.erase k).entries) : p ∈ m.entries ∧ p.1 ≠ k := by
  have hl := lookup_of_mem_entries _ p h
  rw [lookup_erase] at hl
  split at hl
  · simp at hl
  · next hne => exact ⟨by cases p; exact mem_entries_of_lookup _ _ _ hl, hne⟩

theorem mem_entries_assign {V : Type} (m : IntMap V) (k : Int) (v : V) (p : Σ _ : Int, V)
    (h : p ∈ (assign m k v).entries) : p = ⟨k, v⟩ ∨ (p ∈ m.entries ∧ p.1 ≠ k) := by
  have hl := lookup_of_mem_entries _ p h
  rw [lookup_assign] at hl
  split at hl
  · next hk =>
    left
    cases p with
    | mk a b =>
      simp only [Option.some.injEq] at hl
      simp only at hk
      rw [hk, hl]
  · next hne => right; exact ⟨by cases p; exact mem_entries_of_lookup _ _ _ hl, hne⟩

theorem mem_users_after_issue (s : Library) (inp : IssueInput) (now : Int) (st : IssueStore)
    (k : Int) (h : k ∈ s.users) : k ∈ (user_request_issue s inp now st).2.users := by
  obtain ⟨x, -, -, -, hx, hres⟩ := issue_shape s inp now st
  have hkx : k ∈ x.users := by
    rcases hx with ⟨hx, -⟩ | ⟨-, -, hx⟩
    · rw [hx]; exact h
    · rw [hx]; exact (mem_assign _ _ _ _).2 (Or.inr h)
  rcases hres with ⟨-, hres⟩ | ⟨b, -, -, -, -, -, ⟨-, hres⟩ | ⟨-, hres⟩⟩
  · rw [hres]; exact hkx
  · rw [hres]; exact hkx
  · rw [hres]; exact hkx

theorem mem_users_after_return (s s' : Library) (inp : ReturnInput) (now : Int) (hu : Bool)
    (o : ReturnOutcome) (h : user_request_return s inp now hu = some (o, s')) (k : Int)
    (hk : k ∈ s.users) : k ∈ s'.users := by
  rcases return_effect s s' inp now hu o h with h | ⟨b, rating, -, h⟩ | h
  · rw [h]; exact hk
  · have := congrArg (fun p => p.2) h
    simp only at this
    rw [this]
    exact closeIssue_mem_users _ _ _ _ _ _ k hk
  · have := congrArg (fun p => p.2) h
    simp only at this
    rw [this]
    exact closeIssue_mem_users _ _ _ _ _ _ k hk

theorem applyOp_issuedUsersRegistered (s s' : Library) (op : Op) (h : applyOp s op = some s')
    (hs : IssuedUsersRegistered s) : IssuedUsersRegistered s' := by
  cases op with
  | addBook title author total st =>
    simp only [applyOp, Option.some.injEq] at h
    subst h
    unfold addBook
    split
    · exact hs
    · split
      · exact hs
      · exact hs
  | removeBook book_id execOk =>
    simp only [applyOp, Option.some.injEq] at h
    subst h
    unfold removeBook
    split
    · exact hs
    · split
      · exact hs
      · split
        · exact hs
        · exact hs
  | addUser id name after =>
    simp only [applyOp, Option.some.injEq] at h
    subst h
    unfold addUser
    split
    · exact hs
    · intro p hp
      exact (mem_assign _ _ _ _).2 (Or.inr (hs p hp))
  | removeUser id execOk =>
    simp only [applyOp, Option.some.injEq] at h
    subst h
    unfold removeUser
    split
    · exact hs
    · split
      · exact hs
      · next hna =>
        split
        · intro p hp
          refine AList.mem_erase.2 ⟨?_, hs p hp⟩
          exact user_has_active_issue_false s id hna p.1 p.2 (lookup_of_mem_entries _ p hp)
        · exact hs
  | requestIssue inp now st =>
    simp only [applyOp, Option.some.injEq] at h
    subst h
    intro p hp
    obtain ⟨x, -, hxi, -, -, hres⟩ := issue_shape s inp now st
    rcases hres with ⟨-, hres⟩ | ⟨b, -, -, hux, -, -, ⟨-, hres⟩ | ⟨-, hres⟩⟩
    · rw [hres, hxi] at hp
      exact mem_users_after_issue s inp now st _ (hs p hp)
    · rw [hres] at hp
      simp only [hxi] at hp
      exact mem_users_after_issue s inp now st _ (hs p hp)
    · rw [hres] at hp
      simp only at hp
      rcases mem_entries_assign _ _ _ p hp with hp | ⟨hp, -⟩
      · rw [hp, hres]
        exact hux
      · exact mem_users_after_issue s inp now st _ (hs p hp)
  | requestReturn inp now hu =>
    simp only [applyOp, Option.map_eq_some', Prod.exists, exists_eq_right] at h
    obtain ⟨o, h⟩ := h
    intro p hp
    have hp' : p ∈ s.issued.entries := by
      rcases user_request_return_issued s s' inp now hu o h with heq | ⟨k, heq⟩
      · rw [heq] at hp; exact hp
      · rw [heq] at hp; exact (mem_entries_erase _ _ p hp).1
    exact mem_users_after_return s s' inp now hu o h _ (hs p hp')

theorem issuedUsersRegistered_empty : IssuedUsersRegistered Library.empty := by
  intro p hp
  simp [Library.empty] at hp

theorem mem_books_after_issue (s : Library) (inp : IssueInput) (now : Int) (st : IssueStore)
    (k : Int) (h : k ∈ s.books) : k ∈ (user_request_issue s inp now st).2.books := by
  rcases user_request_issue_books s inp now st with heq | ⟨b, -, -, heq⟩
  · rw [heq]; exact h
  · rw [heq]; exact AList.mem_replace.2 h

theorem mem_books_after_return (s s' : Library) (inp : ReturnInput) (now : Int) (hu : Bool)
    (o : ReturnOutcome) (h : user_request_return s inp now hu = some (o, s')) (k : Int)
    (hk : k ∈ s.books) : k ∈ s'.books := by
  rcases user_request_return_books s s' inp now hu o h with heq | ⟨j, b, rating, -, heq⟩
  · rw [heq]; exact hk
  · rw [heq]; exact AList.mem_replace.2 hk

theorem referenced_iff (s : Library) (book_id : Int) :
    s.issued.entries.any (fun p => p.2.book_id == book_id) = true ↔
      ∃ p ∈ s.issued.entries, p.2.book_id = book_id := by
  rw [List.any_eq_true]
  simp

theorem holds_iff (s : Library) (uid : Int) :
    user_has_active_issue s uid = true ↔ ∃ p ∈ s.issued.entries, p.2.user_id = uid := by
  unfold user_has_active_issue
  rw [List.any_eq_true]
  simp

theorem applyOp_issuedBooksInCatalog (s s' : Library) (op : Op) (h : applyOp s op = some s')
    (hs : IssuedBooksInCatalog s) : IssuedBooksInCatalog s' := by
  cases op with
  | addBook title author total st =>
    simp only [applyOp, Option.some.injEq] at h
    subst h
    unfold addBook
    split
    · exact hs
    · split
      · intro p hp
        exact (mem_assign _ _ _ _).2 (Or.inr (hs p hp))
      · exact hs
  | removeBook book_id execOk =>
    simp only [applyOp, Option.some.injEq] at h
    subst h
    unfold removeBook
    split
    · exact hs
    · split
      · exact hs
      · next href =>
        split
        · intro p hp
          refine AList.mem_erase.2 ⟨?_, hs p hp⟩
          intro heq
          exact href ((referenced_iff s book_id).2 ⟨p, hp, heq⟩)
        · exact hs
  | addUser id name after =>
    simp only [applyOp, Option.some.injEq] at h
    subst h
    unfold addUser
    split
    · exact hs
    · exact hs
  | removeUser id execOk =>
    simp only [applyOp, Option.some.injEq] at h
    subst h
    unfold removeUser
    split
    · exact hs
    · split
      · exact hs
      · split
        · exact hs
        · exact hs
  | requestIssue inp now st =>
    simp only [applyOp, Option.some.injEq] at h
    subst h
    intro p hp
    obtain ⟨x, -, hxi, -, -, hres⟩ := issue_shape s inp now st
    rcases hres with ⟨-, hres⟩ | ⟨b, hb, -, -, -, -, ⟨-, hres⟩ | ⟨-, hres⟩⟩
    · rw [hres, hxi] at hp
      exact mem_books_after_issue s inp now st _ (hs p hp)
    · rw [hres] at hp
      simp only [hxi] at hp
      exact mem_books_after_issue s inp now st _ (hs p hp)
    · rw [hres] at hp
      simp only at hp
      rcases mem_entries_assign _ _ _ p hp with hp | ⟨hp, -⟩
      · rw [hp]
        exact mem_books_after_issue s inp now st _ (mem_of_lookup _ _ _ hb)
      · exact mem_books_after_issue s inp now st _ (hs p hp)
  | requestReturn inp now hu =>
    simp only [applyOp, Option.map_eq_some', Prod.exists, exists_eq_right] at h
    obtain ⟨o, h⟩ := h
    intro p hp
    have hp' : p ∈ s.issued.entries := by
      rcases user_request_return_issued s s' inp now hu o h with heq | ⟨k, heq⟩
      · rw [heq] at hp; exact hp
      · rw [heq] at hp; exact (mem_entries_erase _ _ p hp).1
    exact mem_books_after_return s s' inp now hu o h _ (hs p hp')

theorem issuedBooksInCatalog_empty : IssuedBooksInCatalog Library.empty := by
  intro p hp
  simp [Library.empty] at hp

theorem closeIssue_not_error (x : Library) (uid i : Int) (r : IssuedRecord) (now : Int)
    (hu : Bool) : (closeIssue x uid i r now hu).1.isError = false := by
  unfold closeIssue
  split <;> rfl

theorem user_has_active_issue_congr {s s' : Library} (h : s'.issued = s.issued) (k : Int) :
    user_has_active_issue s' k = user_has_active_issue s k := by
  unfold user_has_active_issue
  rw [h]

theorem NoDefaulterHolds.mono {s : Library} {t t' : Int} (h : NoDefaulterHolds s t)
    (htt : t ≤ t') : NoDefaulterHolds s t' := by
  intro k u hl hd
  apply h k u hl
  unfold User.isDefaulterAt at hd ⊢
  simp only [Bool.and_eq_true, decide_eq_true_eq] at hd ⊢
  exact ⟨hd.1, by omega⟩

theorem NoDefaulterHolds.of_users_issued_eq {s s' : Library} {t : Int} (h : NoDefaulterHolds s t)
    (hu : s'.users = s.users) (hi : s'.issued = s.issued) : NoDefaulterHolds s' t := by
  intro k u hl hd
  rw [hu] at hl
  rw [user_has_active_issue_congr hi]
  exact h k u hl hd

theorem UserIdsAgree.of_users_eq {s s' : Library} (h : UserIdsAgree s) (hu : s'.users = s.users) :
    UserIdsAgree s' := by
  intro k u hl
  rw [hu] at hl
  exact h k u hl

/-- How a call of `user_request_return` that returns came about: nothing was changed, or the
record found for the user was closed. -/
theorem return_cases (s s' : Library) (inp : ReturnInput) (now : Int) (hu : Bool)
    (o : ReturnOutcome) (h : user_request_return s inp now hu = some (o, s')) :
    (o.isError = true ∧ s' = s) ∨
    (inp.uid ∈ s.users ∧ ∃ r, s.issued.lookup (findIssueId s inp.uid) = some r ∧
      r.user_id = inp.uid ∧
      ∃ x : Library, x.users = s.users ∧ x.issued = s.issued ∧ x.history = s.history ∧
        (o, s') = closeIssue x inp.uid (findIssueId s inp.uid) r now hu ∧
        ((s.books.lookup r.book_id = none ∧ x.books = s.books) ∨
          ∃ b rating, s.books.lookup r.book_id = some b ∧
            x.books = s.books.replace r.book_id (recordRating (returnCopy b) rating))) := by
  by_cases hm : inp.uid ∈ s.users
  · by_cases hi : findIssueId s inp.uid = -1
    · rw [return_noActiveIssue s inp now hu hm hi] at h
      simp only [Option.some.injEq, Prod.mk.injEq] at h
      left; rw [← h.1, ← h.2]; exact ⟨rfl, rfl⟩
    · right
      have hok : o ≠ .userNotFound ∧ o ≠ .noActiveIssue := by
        have hne : ∀ o', o'.isError = true → o ≠ o' := by
          intro o' ho' heq
          subst heq
          cases hb : s.books.lookup (recordAt s (findIssueId s inp.uid)).book_id with
          | none =>
            rw [return_noBook s inp now hu hm hi hb] at h
            simp only [Option.some.injEq] at h
            have := congrArg (fun p => p.1.isError) h
            simp only [closeIssue_not_error, ho'] at this
            exact absurd this (by decide)
          | some b =>
            cases hr : readRating inp.ratings with
            | none =>
              rw [return_blocked s inp now hu hm hi b hb hr] at h
              simp at h
            | some rating =>
              rw [return_rated s inp now hu hm hi b hb rating hr] at h
              simp only [Option.some.injEq] at h
              have := congrArg (fun p => p.1.isError) h
              simp only [closeIssue_not_error, ho'] at this
              exact absurd this (by decide)
        exact ⟨hne _ rfl, hne _ rfl⟩
      obtain ⟨-, -, x, hxu, hxi, hxh, hcl, hbooks⟩ :=
        return_success_effect s s' inp now hu o h hok
      obtain ⟨r, hr, hru⟩ := findIssueId_found s inp.uid hi
      rw [recordAt_of_lookup s _ r hr] at hcl hbooks
      refine ⟨hm, r, hr, hru, x, hxu, hxi, hxh, hcl, ?_⟩
      rcases hbooks with hb | ⟨b, rating, hb, -, hxb⟩
      · exact Or.inl hb
      · exact Or.inr ⟨b, rating, hb, hxb⟩
  · rw [return_userNotFound s inp now hu hm] at h
    simp only [Option.some.injEq, Prod.mk.injEq] at h
    left; rw [← h.1, ← h.2]; exact ⟨rfl, rfl⟩

theorem closeIssue_users_lookup (x : Library) (uid i : Int) (r : IssuedRecord) (now : Int)
    (hu : Bool) (k : Int) (u : User)
    (h : (closeIssue x uid i r now hu).2.users.lookup k = some u) :
    x.users.lookup k = some u ∨
      (k = uid ∧ u = { userAt x uid with isDefaulter := true, penaltyEnd := now + penaltyPeriod }) := by
  by_cases hl : now > r.dueDatetime
  · rw [closeIssue_late x uid i r now hu hl] at h
    simp only [lookup_assign] at h
    split at h
    · next hk =>
      simp only [Option.some.injEq] at h
      exact Or.inr ⟨hk, h.symm⟩
    · exact Or.inl h
  · rw [closeIssue_onTime x uid i r now hu hl] at h
    exact Or.inl h

theorem userAt_id (s : Library) (h : UserIdsAgree s) (uid : Int) (hm : uid ∈ s.users) :
    (userAt s uid).id = uid := by
  unfold userAt
  cases hl : s.users.lookup uid with
  | none =>
    rw [← AList.lookup_isSome, hl] at hm
    simp at hm
  | some u => exact h uid u hl

theorem applyOp_userIdsAgree (s s' : Library) (op : Op) (h : applyOp s op = some s')
    (hs : UserIdsAgree s) : UserIdsAgree s' := by
  cases op with
  | addBook title author total st =>
    simp only [applyOp, Option.some.injEq] at h
    subst h
    unfold addBook
    split
    · exact hs
    · split
      · exact hs
      · exact hs
  | removeBook book_id execOk =>
    simp only [applyOp, Option.some.injEq] at h
    subst h
    unfold removeBook
    split
    · exact hs
    · split
      · exact hs
      · split
        · exact hs
        · exact hs
  | addUser id name after =>
    simp only [applyOp, Option.some.injEq] at h
    subst h
    unfold addUser
    split
    · exact hs
    · intro k u hl
      simp only [lookup_assign] at hl
      split at hl
      · next hk =>
        simp only [Option.some.injEq] at hl
        rw [← hl, hk]
      · exact hs k u hl
  | removeUser id execOk =>
    simp only [applyOp, Option.some.injEq] at h
    subst h
    unfold removeUser
    split
    · exact hs
    · split
      · exact hs
      · split
        · intro k u hl
          simp only [lookup_erase] at hl
          split at hl
          · simp at hl
          · exact hs k u hl
        · exact hs
  | requestIssue inp now st =>
    simp only [applyOp, Option.some.injEq] at h
    subst h
    obtain ⟨x, -, -, -, hx, hres⟩ := issue_shape s inp now st
    have hxa : UserIdsAgree x := by
      rcases hx with ⟨hx, -⟩ | ⟨-, -, hx⟩
      · rw [hx]; exact hs
      · rw [hx]
        intro k u hl
        simp only [registerUser, lookup_assign] at hl
        split at hl
        · next hk =>
          simp only [Option.some.injEq] at hl
          rw [← hl, hk]
        · exact hs k u hl
    rcases hres with ⟨-, hres⟩ | ⟨b, -, -, -, -, -, ⟨-, hres⟩ | ⟨-, hres⟩⟩
    · rw [hres]; exact hxa
    · rw [hres]; exact hxa.of_users_eq rfl
    · rw [hres]; exact hxa.of_users_eq rfl
  | requestReturn inp now hu =>
    simp only [applyOp, Option.map_eq_some', Prod.exists, exists_eq_right] at h
    obtain ⟨o, h⟩ := h
    rcases return_cases s s' inp now hu o h with ⟨-, heq⟩ | ⟨hm, r, -, -, x, hxu, -, -, hcl, -⟩
    · rw [heq]; exact hs
    · have hs' := congrArg (fun p => p.2) hcl
      simp only at hs'
      intro k u hl
      rw [hs'] at hl
      rcases closeIssue_users_lookup x inp.uid _ r now hu k u hl with hl | ⟨hk, hu'⟩
      · rw [hxu] at hl; exact hs k u hl
      · rw [hu', hk]
        simp only
        exact userAt_id x (hs.of_users_eq hxu) inp.uid (by rw [hxu]; exact hm)

theorem userIdsAgree_empty : UserIdsAgree Library.empty := by
  intro k u hl
  simp [Library.empty] at hl

theorem applyOp_noDefaulterHolds (s s' : Library) (op : Op) (h : applyOp s op = some s')
    (t : Int) (ht : ∀ x, op.time = some x → x = t) (h1 : OneIssuePerUser s)
    (hs : NoDefaulterHolds s t) : NoDefaulterHolds s' t := by
  cases op with
  | addBook title author total st =>
    simp only [applyOp, Option.some.injEq] at h
    subst h
    unfold addBook
    split
    · exact hs
    · split
      · exact hs.of_users_issued_eq rfl rfl
      · exact hs
  | removeBook book_id execOk =>
    simp only [applyOp, Option.some.injEq] at h
    subst h
    unfold removeBook
    split
    · exact hs
    · split
      · exact hs
      · split
        · exact hs.of_users_issued_eq rfl rfl
        · exact hs
  | addUser id name after =>
    simp only [applyOp, Option.some.injEq] at h
    subst h
    unfold addUser
    split
    · exact hs
    · intro k u hl hd
      simp only [lookup_assign] at hl
      split at hl
      · simp only [Option.some.injEq] at hl
        rw [← hl] at hd
        simp [User.isDefaulterAt] at hd
      · exact hs k u hl hd
  | removeUser id execOk =>
    simp only [applyOp, Option.some.injEq] at h
    subst h
    unfold removeUser
    split
    · exact hs
    · split
      · exact hs
      · split
        · intro k u hl hd
          simp only [lookup_erase] at hl
          split at hl
          · simp at hl
          · exact hs k u hl hd
        · exact hs
  | requestIssue inp now st =>
    simp only [applyOp, Option.some.injEq] at h
    subst h
    have hnow : now = t := ht now rfl
    subst hnow
    obtain ⟨x, -, hxi, -, hx, hres⟩ := issue_shape s inp now st
    have hxD : NoDefaulterHolds x now := by
      rcases hx with ⟨hx, -⟩ | ⟨-, -, hx⟩
      · rw [hx]; exact hs
      · rw [hx]
        intro k u hl hd
        simp only [registerUser, lookup_assign] at hl
        split at hl
        · simp only [Option.some.injEq] at hl
          rw [← hl] at hd
          simp [User.isDefaulterAt] at hd
        · exact hs k u hl hd
    rcases hres with ⟨-, hres⟩ | ⟨b, -, -, hux, hnd, hna, ⟨-, hres⟩ | ⟨-, hres⟩⟩
    · rw [hres]; exact hxD
    · rw [hres]; exact hxD.of_users_issued_eq rfl rfl
    · rw [hres]
      intro k u hl hd
      simp only at hl
      have hk : k ≠ inp.uid := by
        intro hk
        apply hnd
        unfold userAt
        rw [← hk, hl]
        exact hd
      have hxk := hxD k u hl hd
      rw [user_has_active_issue_congr hxi] at hxk
      rw [Bool.eq_false_iff]
      intro hyes
      obtain ⟨j, q, hq, hqu⟩ := (user_has_active_issue_iff _ k).1 hyes
      simp only [lookup_assign] at hq
      split at hq
      · simp only [Option.some.injEq] at hq
        rw [← hq] at hqu
        exact hk hqu.symm
      · exact user_has_active_issue_false s k (by simp [hxk]) j q hq hqu
  | requestReturn inp now hu =>
    simp only [applyOp, Option.map_eq_some', Prod.exists, exists_eq_right] at h
    obtain ⟨o, h⟩ := h
    have hnow : now = t := ht now rfl
    subst hnow
    rcases return_cases s s' inp now hu o h with
      ⟨-, heq⟩ | ⟨hm, r, hr, hru, x, hxu, hxi, -, hcl, -⟩
    · rw [heq]; exact hs
    · have hs' := congrArg (fun p => p.2) hcl
      simp only at hs'
      intro k u hl hd
      rw [Bool.eq_false_iff]
      intro hyes
      obtain ⟨j, q, hq, hqu⟩ := (user_has_active_issue_iff _ k).1 hyes
      rw [hs', closeIssue_issued, hxi, lookup_erase] at hq
      split at hq
      · simp at hq
      · next hji =>
        by_cases hk : k = inp.uid
        · apply hji
          exact (h1 _ j r q hr hq (by rw [hru, hqu, hk])).symm
        · rw [hs'] at hl
          rcases closeIssue_users_lookup x inp.uid _ r now hu k u hl with hl | ⟨hk', -⟩
          · rw [hxu] at hl
            exact user_has_active_issue_false s k (by simp [hs k u hl hd]) j q hq hqu
          · exact hk hk'

theorem noDefaulterHolds_empty (t : Int) : NoDefaulterHolds Library.empty t := by
  intro k u hl
  simp [Library.empty] at hl

theorem timestamps_cons_none (op : Op) (ops : List Op) (h : op.time = none) :
    timestamps (op :: ops) = timestamps ops := by
  unfold timestamps
  rw [List.filterMap_cons, h]

theorem timestamps_cons_some (op : Op) (ops : List Op) (x : Int) (h : op.time = some x) :
    timestamps (op :: ops) = x :: timestamps ops := by
  unfold timestamps
  rw [List.filterMap_cons, h]

/-- Along a run whose clock values do not decrease and start at `lo` or later, the property that
no defaulter holds a record moves from time `lo` to every time `now` not before the last call. -/
theorem run_noDefaulterHolds : ∀ (ops : List Op) (s s' : Library) (lo now : Int),
    run s ops = some s' → OneIssuePerUser s → NoDefaulterHolds s lo →
    (∀ t ∈ timestamps ops, lo ≤ t) → (timestamps ops).Pairwise (fun a b => a ≤ b) →
    (∀ t ∈ timestamps ops, t ≤ now) → lo ≤ now → NoDefaulterHolds s' now
  | [], s, s', lo, now, h, _, hD, _, _, _, hle => by
    simp only [run, Option.some.injEq] at h
    rw [← h]
    exact hD.mono hle
  | op :: ops, s, s', lo, now, h, h1, hD, hlo, hmono, hnow, hle => by
    simp only [run, Option.bind_eq_some] at h
    obtain ⟨s1, hstep, hrest⟩ := h
    have h1' := applyOp_oneIssuePerUser s s1 op hstep h1
    cases hop : op.time with
    | none =>
      rw [timestamps_cons_none op ops hop] at hlo hmono hnow
      have hD1 := applyOp_noDefaulterHolds s s1 op hstep lo
        (fun x hx => by rw [hop] at hx; simp at hx) h1 hD
      exact run_noDefaulterHolds ops s1 s' lo now hrest h1' hD1 hlo hmono hnow hle
    | some x =>
      rw [timestamps_cons_some op ops x hop] at hlo hmono hnow
      have hlox : lo ≤ x := hlo x (List.mem_cons_self _ _)
      have hD1 := applyOp_noDefaulterHolds s s1 op hstep x
        (fun y hy => by rw [hop] at hy; simp only [Option.some.injEq] at hy; exact hy.symm) h1
        (hD.mono hlox)
      rw [List.pairwise_cons] at hmono
      exact run_noDefaulterHolds ops s1 s' x now hrest h1' hD1 hmono.1 hmono.2
        (fun t ht => hnow t (List.mem_cons_of_mem _ ht)) (hnow x (List.mem_cons_self _ _))


/-! ## The account of the copies -/

theorem activeCount_congr {s s' : Library} (h : s'.issued = s.issued) (k : Int) :
    activeCount s' k = activeCount s k := by
  unfold activeCount
  rw [h]

theorem activeCount_assign (s s' : Library) (i : Int) (r : IssuedRecord) (hi : i ∉ s.issued)
    (hs : s'.issued = assign s.issued i r) (k : Int) :
    activeCount s' k = activeCount s k + (if r.book_id = k then 1 else 0) := by
  unfold activeCount
  rw [hs, assign_entries_of_not_mem _ _ _ hi, List.filter_cons]
  by_cases hk : r.book_id = k
  · simp [hk]
  · simp [hk]

theorem activeCount_erase (s s' : Library) (i : Int) (r : IssuedRecord)
    (hr : s.issued.lookup i = some r) (hs : s'.issued = s.issued.erase i) (k : Int) :
    activeCount s' k + (if r.book_id = k then 1 else 0) = activeCount s k := by
  have hmem : i ∈ s.issued.entries.keys := mem_of_lookup _ _ _ hr
  obtain ⟨b, l₁, l₂, -, hl, hke⟩ := List.exists_of_kerase hmem
  have hb : b = r := by
    have hin : (⟨i, b⟩ : Σ _ : Int, IssuedRecord) ∈ s.issued.entries := by
      rw [hl]; simp
    have := lookup_of_mem_entries _ _ hin
    simp only [hr, Option.some.injEq] at this
    exact this.symm
  subst hb
  have he : s'.issued.entries = l₁ ++ l₂ := by
    rw [hs]
    exact hke
  unfold activeCount
  rw [he, hl]
  simp only [List.filter_append, List.length_append, List.filter_cons]
  by_cases hk : b.book_id = k
  · simp [hk]; omega
  · simp [hk]

theorem activeCount_eq_zero (s : Library) (k : Int)
    (h : ∀ p ∈ s.issued.entries, p.2.book_id ≠ k) : activeCount s k = 0 := by
  unfold activeCount
  rw [List.length_eq_zero, List.filter_eq_nil_iff]
  intro p hp hpk
  exact h p hp (by simpa using hpk)

theorem activeCount_pos (s : Library) (i : Int) (r : IssuedRecord)
    (hr : s.issued.lookup i = some r) : 0 < activeCount s r.book_id := by
  unfold activeCount
  rw [List.length_pos_iff_exists_mem]
  exact ⟨⟨i, r⟩, List.mem_filter.2 ⟨mem_entries_of_lookup _ _ _ hr, by simp⟩⟩

theorem returnCopy_total (b : Book) (rating : Int) :
    (recordRating (returnCopy b) rating).totalCopies = b.totalCopies := by
  unfold recordRating returnCopy
  simp only
  split <;> rfl

theorem CopiesAccounted.of_books_issued_eq {s s' : Library} (h : CopiesAccounted s) (hb : s'.books = s.books)
    (hi : s'.issued = s.issued) : CopiesAccounted s' := by
  intro k b hl
  rw [hb] at hl
  rw [activeCount_congr hi]
  exact h k b hl

/-- One call keeps the account of the copies, provided the ids it stores under are fresh and the
store accepts the insert of the record. -/
theorem applyOp_copiesAccounted (s s' : Library) (op : Op) (h : applyOp s op = some s')
    (hf : freshIds s op = true) (ha : insertAccepted s op = true)
    (hc : IssuedBooksInCatalog s) (hs : CopiesAccounted s) : CopiesAccounted s' := by
  cases op with
  | addBook title author total st =>
    simp only [applyOp, Option.some.injEq] at h
    subst h
    by_cases htot : total ≤ 0
    · have hres : addBook s title author total st = (.invalidNumber, s) := by
        unfold addBook; rw [if_pos htot]
      rw [hres]; exact hs
    · by_cases hp : st.prepared = true
      · have hres : addBook s title author total st = (.added st.rowid,
            { s with
              books := (assign s.books st.rowid ⟨st.rowid, title, author, total, total, 0, 0⟩) }) := by
          unfold addBook; rw [if_neg htot, if_pos hp]
        simp only [freshIds, hres, decide_eq_true_eq] at hf
        rw [hres]
        intro k b hl
        simp only [lookup_assign] at hl
        show b.availableCopies + (activeCount s k : Int) = b.totalCopies
        split at hl
        · next hk =>
          simp only [Option.some.injEq] at hl
          rw [← hl, hk]
          rw [activeCount_eq_zero s st.rowid
            (fun p hp' heq => hf (by rw [← heq]; exact hc p hp'))]
          simp
        · exact hs k b hl
      · have hres : addBook s title author total st = (.notPrepared, s) := by
          unfold addBook; rw [if_neg htot, if_neg hp]
        rw [hres]; exact hs
  | removeBook book_id execOk =>
    simp only [applyOp, Option.some.injEq] at h
    subst h
    unfold removeBook
    split
    · exact hs
    · split
      · exact hs
      · split
        · intro k b hl
          simp only [lookup_erase] at hl
          split at hl
          · simp at hl
          · exact hs k b hl
        · exact hs
  | addUser id name after =>
    simp only [applyOp, Option.some.injEq] at h
    subst h
    unfold addUser
    split
    · exact hs
    · exact hs.of_books_issued_eq rfl rfl
  | removeUser id execOk =>
    simp only [applyOp, Option.some.injEq] at h
    subst h
    unfold removeUser
    split
    · exact hs
    · split
      · exact hs
      · split
        · exact hs.of_books_issued_eq rfl rfl
        · exact hs
  | requestIssue inp now st =>
    simp only [applyOp, Option.some.injEq] at h
    subst h
    obtain ⟨x, hxb, hxi, -, -, hres⟩ := issue_shape s inp now st
    rcases hres with ⟨-, hres⟩ | ⟨b, hb, -, -, -, -, ⟨-, hres⟩ | ⟨-, hres⟩⟩
    · rw [hres]; exact hs.of_books_issued_eq hxb hxi
    · simp [insertAccepted, hres] at ha
    · simp only [freshIds, hres, decide_eq_true_eq] at hf
      rw [hres]
      intro k b' hl
      simp only [lookup_replace] at hl
      rw [activeCount_assign s _ st.rowid (newRecord inp now st.rowid) hf rfl k]
      have hacc := hs inp.book_id b hb
      split at hl
      · next hk =>
        simp only [Option.some.injEq] at hl
        rw [← hl, hk.1]
        simp only [takeCopy, newRecord, if_true]
        push_cast
        omega
      · next hk =>
        have hne : ¬ inp.book_id = k := by
          intro heq
          exact hk ⟨heq.symm, mem_of_lookup _ _ _ hb⟩
        simp only [newRecord, hne, if_false, Nat.add_zero]
        exact hs k b' hl
  | requestReturn inp now hu =>
    simp only [applyOp, Option.map_eq_some', Prod.exists, exists_eq_right] at h
    obtain ⟨o, h⟩ := h
    rcases return_cases s s' inp now hu o h with
      ⟨-, heq⟩ | ⟨-, r, hr, -, x, -, hxi, -, hcl, hbooks⟩
    · rw [heq]; exact hs
    · have hs' := congrArg (fun p => p.2) hcl
      simp only at hs'
      have hiss : s'.issued = s.issued.erase (findIssueId s inp.uid) := by
        rw [hs', closeIssue_issued, hxi]
      have hbk : s'.books = x.books := by rw [hs', closeIssue_books]
      intro k b' hl
      have hcount := activeCount_erase s s' _ r hr hiss k
      rw [hbk] at hl
      rcases hbooks with ⟨hnone, -⟩ | ⟨b, rating, hb, hxb⟩
      · have hin := hc ⟨_, r⟩ (mem_entries_of_lookup _ _ _ hr)
        rw [← AList.lookup_isSome, hnone] at hin
        simp at hin
      · rw [hxb, lookup_replace] at hl
        have hacc := hs r.book_id b hb
        have hpos := activeCount_pos s _ r hr
        split at hl
        · next hk =>
          obtain ⟨hk1, -⟩ := hk
          subst hk1
          simp only [Option.some.injEq] at hl
          rw [← hl, returnCopy_total, returnCopy_available]
          rw [if_pos rfl] at hcount
          split <;> omega
        · next hk =>
          have hne : ¬ r.book_id = k := by
            intro heq
            exact hk ⟨heq.symm, mem_of_lookup _ _ _ hb⟩
          simp only [hne, if_false, Nat.add_zero] at hcount
          rw [hcount]
          exact hs k b' hl

theorem copiesAccounted_empty : CopiesAccounted Library.empty := by
  intro k b hl
  simp [Library.empty] at hl

theorem holdsAlong_cons (P : Library → Op → Bool) (s s1 : Library) (op : Op) (ops : List Op)
    (hstep : applyOp s op = some s1) :
    holdsAlong P s (op :: ops) = (P s op && holdsAlong P s1 ops) := by
  simp only [holdsAlong, hstep]

theorem run_copiesAccounted : ∀ (ops : List Op) (s s' : Library),
    run s ops = some s' → holdsAlong freshIds s ops = true →
    holdsAlong insertAccepted s ops = true → IssuedBooksInCatalog s → CopiesAccounted s →
    CopiesAccounted s'
  | [], s, s', h, _, _, _, hs => by
    simp only [run, Option.some.injEq] at h
    rw [← h]; exact hs
  | op :: ops, s, s', h, hf, ha, hc, hs => by
    simp only [run, Option.bind_eq_some] at h
    obtain ⟨s1, hstep, hrest⟩ := h
    rw [holdsAlong_cons _ s s1 op ops hstep, Bool.and_eq_true] at hf ha
    exact run_copiesAccounted ops s1 s' hrest hf.2 ha.2
      (applyOp_issuedBooksInCatalog s s1 op hstep hc)
      (applyOp_copiesAccounted s s1 op hstep hf.1 ha.1 hc hs)

/-- The part of the copies account that does not depend on the defect of the rejected insert: in
every state reached from the empty library by calls that store under fresh ids and whose
`INSERT INTO issued` the store accepts, every book of the catalog has `availableCopies` plus the
number of its active records equal to `totalCopies`; every active record references a book of the
catalog; and giving back a copy of a referenced book never runs into the clamp. -/
theorem copies_accounted_when_inserts_accepted (ops : List Op) (s : Library)
    (hrun : run Library.empty ops = some s)
    (hfresh : holdsAlong freshIds Library.empty ops = true)
    (hacc : holdsAlong insertAccepted Library.empty ops = true) :
    (∀ k b, s.books.lookup k = some b →
      b.availableCopies + (activeCount s k : Int) = b.totalCopies) ∧
    (∀ p ∈ s.issued.entries, p.2.book_id ∈ s.books) ∧
    (∀ p ∈ s.issued.entries, ∀ b, s.books.lookup p.2.book_id = some b →
      returnCopy b = { b with availableCopies := b.availableCopies + 1 }) := by
  have h1 := run_copiesAccounted ops _ s hrun hfresh hacc issuedBooksInCatalog_empty
    copiesAccounted_empty
  have h2 := run_invariant IssuedBooksInCatalog applyOp_issuedBooksInCatalog ops _ s hrun
    issuedBooksInCatalog_empty
  refine ⟨h1, h2, ?_⟩
  intro p hp b hb
  have hacc' := h1 _ b hb
  have hpos := activeCount_pos s p.1 p.2 (lookup_of_mem_entries _ p hp)
  unfold returnCopy
  simp only
  rw [if_neg (by omega)]

/-- The account of the copies at the state after `sampleOps`, where both copies of book 1 are
lent under the fresh ids 1 and 2. -/
theorem copies_accounted_sample :
    activeCount sampleState 1 = 2 ∧
    ∀ k b, sampleState.books.lookup k = some b →
      b.availableCopies + (activeCount sampleState k : Int) = b.totalCopies :=
  ⟨by decide,
    (copies_accounted_when_inserts_accepted sampleOps sampleState rfl (by decide) (by decide)).1⟩

/-! ## The claims -/

/-- C1: in every state reachable from the empty library by any sequence of addBook, removeBook,
addUser, removeUser, requestIssue and requestReturn calls, whatever the store answers, every book
of the catalog satisfies `0 ≤ availableCopies ≤ totalCopies`. -/
theorem available_within_total_of_reachable (s : Library) (h : Reachable s) (k : Int) (b : Book)
    (hb : s.books.lookup k = some b) :
    0 ≤ b.availableCopies ∧ b.availableCopies ≤ b.totalCopies := by
  obtain ⟨ops, hops⟩ := h
  exact run_invariant BooksInRange applyOp_booksInRange ops _ s hops booksInRange_empty k b hb

/-- C1 at the state after `sampleOps`, where both copies of book 1 are lent. -/
theorem available_within_total_witness :
    Reachable sampleState ∧ sampleState.books.lookup 1 = some ⟨1, "T", "A", 2, 0, 0, 0⟩ ∧
      ((0 : Int) ≤ 0 ∧ (0 : Int) ≤ 2) :=
  ⟨⟨sampleOps, rfl⟩, by decide,
    available_within_total_of_reachable sampleState ⟨sampleOps, rfl⟩ 1 ⟨1, "T", "A", 2, 0, 0, 0⟩
      (by decide)⟩

/-- C2: in every state reachable from the empty library by any sequence of the library
operations, whatever the store answers, the active-issue map holds at most one record per user
id: two distinct issue ids never carry the same `user_id`, and the scan for the records of a user
meets at most one. -/
theorem one_issue_per_user_of_reachable (s : Library) (h : Reachable s) :
    (∀ i j r r', s.issued.lookup i = some r → s.issued.lookup j = some r' → i ≠ j →
      r.user_id ≠ r'.user_id) ∧
    ∀ uid, (s.issued.entries.filter (fun p => p.2.user_id == uid)).length ≤ 1 := by
  obtain ⟨ops, hops⟩ := h
  have inv := run_invariant OneIssuePerUser applyOp_oneIssuePerUser ops _ s hops
    oneIssuePerUser_empty
  exact ⟨fun i j r r' hi hj hij hu => hij (inv i j r r' hi hj hu),
    fun uid => userRecords_length_le_one s inv uid⟩

/-- C2 at the state after `sampleOps`, where users 1 and 2 hold one issue each. -/
theorem one_issue_per_user_witness :
    Reachable sampleState ∧
    (∀ i j r r', sampleState.issued.lookup i = some r → sampleState.issued.lookup j = some r' →
      i ≠ j → r.user_id ≠ r'.user_id) ∧
    ∀ uid, (sampleState.issued.entries.filter (fun p => p.2.user_id == uid)).length ≤ 1 :=
  ⟨⟨sampleOps, rfl⟩, one_issue_per_user_of_reachable sampleState ⟨sampleOps, rfl⟩⟩

/-- C5 (amended): a user whose book was issued at `t0` and returned late at `t`
(`t > t0 + 1296000`), and whose user record has not been touched since, is refused with "You are
a defaulter until" (Forbidden) at a later request at time `t'` if and only if `t' < t + 604800`,
and then the state is left as it is; whatever the outcome, the stored flag is still set
afterwards. -/
theorem forbidden_until_penalty_end (s0 s1 s2 s3 : Library) (inp1 : IssueInput) (t0 : Int)
    (st1 : IssueStore) (iid due : Int)
    (h1 : user_request_issue s0 inp1 t0 st1 = (.issued iid due, s1))
    (ratings : List Int) (t : Int) (hu : Bool) (o2 : ReturnOutcome)
    (h2 : user_request_return s1 ⟨inp1.uid, ratings⟩ t hu = some (o2, s2))
    (hok : o2 ≠ .userNotFound ∧ o2 ≠ .noActiveIssue) (hlate : t > t0 + 1296000)
    (hsame : s3.users.lookup inp1.uid = s2.users.lookup inp1.uid)
    (inp3 : IssueInput) (h3 : inp3.uid = inp1.uid) (t' : Int) (st3 : IssueStore) :
    ((∃ p, (user_request_issue s3 inp3 t' st3).1 = .defaulterUntil p) ↔ t' < t + 604800) ∧
    (t' < t + 604800 →
      user_request_issue s3 inp3 t' st3 = (.defaulterUntil (t + 604800), s3)) ∧
    (userAt (user_request_issue s3 inp3 t' st3).2 inp1.uid).isDefaulter = true := by
  obtain ⟨x, b, -, -, -, -, -, -, hfree, -, -, -, -, -, hs1⟩ :=
    issue_issued_inv s0 s1 inp1 t0 st1 iid due h1
  obtain ⟨-, hi, y, hyu, -, -, hcl, -⟩ := return_success_effect s1 s2 _ t hu o2 h2 hok
  obtain ⟨r, hr, hru⟩ := findIssueId_found s1 inp1.uid hi
  have hrec : r = newRecord inp1 t0 st1.rowid := by
    have hiss : s1.issued = assign s0.issued st1.rowid (newRecord inp1 t0 st1.rowid) := by
      rw [hs1]
    have hr' : (assign s0.issued st1.rowid (newRecord inp1 t0 st1.rowid)).lookup
        (findIssueId s1 inp1.uid) = some r := by
      rw [← hiss]; exact hr
    exact (record_after_issue s0.issued inp1.uid _ _ _ r
      (fun j q hq => user_has_active_issue_false s0 inp1.uid hfree j q hq) hr' hru).2
  have hdue : r.dueDatetime = t0 + 1296000 := by
    rw [hrec, ← loanPeriod_eq]; rfl
  simp only at hcl
  rw [recordAt_of_lookup s1 _ r hr,
    closeIssue_late y inp1.uid _ r t hu (by rw [hdue]; exact hlate)] at hcl
  simp only [Prod.mk.injEq] at hcl
  obtain ⟨-, hs2⟩ := hcl
  have hl2 : s2.users.lookup inp1.uid =
      some { userAt y inp1.uid with isDefaulter := true, penaltyEnd := t + penaltyPeriod } := by
    rw [hs2]; exact lookup_assign_self _ _ _
  have hmem : inp3.uid ∈ s3.users := by
    rw [h3]; exact mem_of_lookup _ _ _ (hsame.trans hl2)
  have hat : userAt s3 inp3.uid =
      { userAt y inp1.uid with isDefaulter := true, penaltyEnd := t + penaltyPeriod } := by
    rw [h3]; unfold userAt; rw [hsame, hl2]; rfl
  have hdef : (userAt s3 inp3.uid).isDefaulterAt t' = true ↔ t' < t + 604800 := by
    rw [hat]
    simp [User.isDefaulterAt, penaltyPeriod_eq]
  have hflag : (userAt (user_request_issue s3 inp3 t' st3).2 inp1.uid).isDefaulter = true := by
    unfold userAt
    rw [issue_users_of_mem s3 inp3 t' st3 hmem, hsame, hl2]
    rfl
  rcases issue_outcome_of_mem s3 inp3 t' st3 hmem with ⟨hd, heq⟩ | ⟨hd, hne⟩
  · refine ⟨⟨fun _ => hdef.1 hd, fun _ => ⟨_, by rw [heq]⟩⟩, fun _ => ?_, hflag⟩
    rw [heq, hat, penaltyPeriod_eq]
  · refine ⟨⟨fun ⟨p, hp⟩ => absurd hp (hne p), fun hlt => absurd (hdef.2 hlt) hd⟩,
      fun hlt => absurd (hdef.2 hlt) hd, hflag⟩

/-- C5 as stated fails, in both directions, for user 1 whose book was issued at 0 and returned
late at 2000000 (`lateOps`), so that `t + 604800 = 2604800`.  After `removeUser` the same id
registers again during a request at 2000001 and is issued the book inside the window, the stored
flag being gone with the removed user.  After a second issue at 3000000 and a second late return
at 4296001 the request at 4300000, outside the first window, is refused until 4900801. -/
theorem penalty_window_counterexample :
    Reachable removedState ∧
    (user_request_issue removedState ⟨1, 1, "ann", 1⟩ 2000001 ⟨true, 2, true, none⟩).1 =
      .issued 2 3296001 ∧
    (2000001 : Int) < 2000000 + 604800 ∧
    (userAt (user_request_issue removedState ⟨1, 1, "ann", 1⟩ 2000001
      ⟨true, 2, true, none⟩).2 1).isDefaulter = false ∧
    Reachable relapsedState ∧
    (user_request_issue relapsedState ⟨1, 0, "", 1⟩ 4300000 ⟨true, 3, true, none⟩).1 =
      .defaulterUntil 4900801 ∧
    ¬ ((4300000 : Int) < 2000000 + 604800) :=
  ⟨⟨removedOps, rfl⟩, by decide, by decide, by decide, ⟨relapsedOps, rfl⟩, by decide, by decide⟩

/-- C5 (amended) at the runs `issuedOps` and `lateOps`: issued at 0, returned at 2000000, so the
request at 2500000 is refused until 2604800. -/
theorem forbidden_until_penalty_end_witness :
    user_request_issue lateState ⟨1, 0, "", 1⟩ 2500000 ⟨true, 2, true, none⟩ =
      (.defaulterUntil 2604800, lateState) :=
  (forbidden_until_penalty_end readyState issuedState lateState lateState ⟨1, 0, "", 1⟩ 0
    ⟨true, 1, true, none⟩ 1 1296000 rfl [4] 2000000 true (.overdue 2604800) rfl (by decide)
    (by decide) rfl ⟨1, 0, "", 1⟩ rfl 2500000 ⟨true, 2, true, none⟩).2.1 (by decide)

/-- C6: for `k ≥ 1` star values within 1..5 recorded one after the other on a never-rated book
(`avg_rating = 0`, `total_ratings = 0`) by the rating update of `user_request_return`, over exact
rational arithmetic, the resulting `avg_rating` is the arithmetic mean of the values and
`total_ratings` is `k`; hence every permutation of the values gives the same two results. -/
theorem rating_average_is_mean (b : Book) (rs : List Int) (havg : b.avg_rating = 0)
    (htot : b.total_ratings = 0) (hk : 1 ≤ rs.length) (hstars : ∀ r ∈ rs, 1 ≤ r ∧ r ≤ 5) :
    (recordRatings b rs).avg_rating = (rs.sum : ℚ) / (rs.length : ℚ) ∧
    (recordRatings b rs).total_ratings = rs.length ∧
    ∀ rs' : List Int, rs'.Perm rs →
      (recordRatings b rs').avg_rating = (recordRatings b rs).avg_rating ∧
      (recordRatings b rs').total_ratings = (recordRatings b rs).total_ratings := by
  have _ := hstars
  have main : ∀ l : List Int, 1 ≤ l.length →
      (recordRatings b l).avg_rating = (l.sum : ℚ) / (l.length : ℚ) ∧
      (recordRatings b l).total_ratings = l.length := by
    intro l hl
    have h := recordRatings_sum l b 0 0 (by rw [htot]; rfl) (by rw [havg]; simp)
    simp only [Nat.zero_add, Int.zero_add] at h
    have hpos : (l.length : ℚ) ≠ 0 := by
      have : (0 : ℚ) < (l.length : ℚ) := by exact_mod_cast hl
      exact ne_of_gt this
    exact ⟨by rw [eq_div_iff hpos]; exact h.2, h.1⟩
  refine ⟨(main rs hk).1, (main rs hk).2, fun rs' hp => ?_⟩
  have hk' : 1 ≤ rs'.length := by rw [hp.length_eq]; exact hk
  rw [(main rs' hk').1, (main rs' hk').2, (main rs hk).1, (main rs hk).2, hp.sum_eq,
    hp.length_eq]
  exact ⟨rfl, rfl⟩

/-- C6 on the ratings 4 then 2: the average is 4 after the first and 3 after the second. -/
theorem rating_average_is_mean_witness :
    (recordRatings ⟨1, "T", "A", 2, 2, 0, 0⟩ [4]).avg_rating = 4 ∧
    (recordRatings ⟨1, "T", "A", 2, 2, 0, 0⟩ [4, 2]).avg_rating = 3 ∧
    (recordRatings ⟨1, "T", "A", 2, 2, 0, 0⟩ [4, 2]).total_ratings = 2 ∧
    (recordRatings ⟨1, "T", "A", 2, 2, 0, 0⟩ [2, 4]).avg_rating =
      (recordRatings ⟨1, "T", "A", 2, 2, 0, 0⟩ [4, 2]).avg_rating :=
  have h1 := rating_average_is_mean ⟨1, "T", "A", 2, 2, 0, 0⟩ [4] rfl rfl (by decide) (by decide)
  have h2 := rating_average_is_mean ⟨1, "T", "A", 2, 2, 0, 0⟩ [4, 2] rfl rfl (by decide)
    (by decide)
  ⟨by rw [h1.1]; norm_num, by rw [h2.1]; norm_num, h2.2.1,
    (h2.2.2 [2, 4] (List.Perm.swap 4 2 [])).1⟩

/-- C7: when a user holds exactly one active issue, after a successful `requestReturn` by that
user a second `requestReturn` by the same user ends with "No active issued books"
(NoActiveIssue) and leaves the whole state (books, users, active issues, history) as it is; the
copy count of the returned book has gone up once, by the clamped increment of the first call. -/
theorem second_return_fails (s s1 : Library) (inp : ReturnInput) (now : Int) (hu : Bool)
    (o : ReturnOutcome)
    (hone : (s.issued.entries.filter (fun p => p.2.user_id == inp.uid)).length = 1)
    (hres : user_request_return s inp now hu = some (o, s1))
    (hok : o ≠ .userNotFound ∧ o ≠ .noActiveIssue)
    (inp2 : ReturnInput) (huid : inp2.uid = inp.uid) (now2 : Int) (hu2 : Bool) :
    user_request_return s1 inp2 now2 hu2 = some (.noActiveIssue, s1) ∧
    ∀ b, s.books.lookup (recordAt s (findIssueId s inp.uid)).book_id = some b →
      (s1.books.lookup (recordAt s (findIssueId s inp.uid)).book_id).map (·.availableCopies) =
        some (if b.availableCopies + 1 > b.totalCopies then b.totalCopies
          else b.availableCopies + 1) := by
  obtain ⟨hm, hi, x, hxu, hxi, -, hcl, hbooks⟩ :=
    return_success_effect s s1 inp now hu o hres hok
  obtain ⟨r, hr, hru⟩ := findIssueId_found s inp.uid hi
  have hs1 : s1 = (closeIssue x inp.uid (findIssueId s inp.uid)
      (recordAt s (findIssueId s inp.uid)) now hu).2 := by rw [← hcl]
  have hiss : s1.issued = s.issued.erase (findIssueId s inp.uid) := by
    rw [hs1, closeIssue_issued, hxi]
  have hmem : inp2.uid ∈ s1.users := by
    rw [huid, hs1]
    exact closeIssue_mem_users x _ _ _ _ _ _ (by rw [hxu]; exact hm)
  have hnone : ¬ user_has_active_issue s1 inp2.uid = true := by
    rw [huid]
    exact no_active_issue_after_erase s inp.uid _ r hone hr hru s1 hiss
  refine ⟨return_noActiveIssue s1 inp2 now2 hu2 hmem (findIssueId_none s1 inp2.uid hnone), ?_⟩
  intro b hb
  have hsb : s1.books = x.books := by rw [hs1, closeIssue_books]
  rcases hbooks with ⟨hnob, -⟩ | ⟨b', rating, hb', -, hx⟩
  · rw [hb] at hnob; simp at hnob
  · rw [hb] at hb'
    simp only [Option.some.injEq] at hb'
    subst hb'
    rw [hsb, hx, lookup_replace_self _ (mem_of_lookup _ _ _ hb)]
    simp only [Option.map_some', returnCopy_available]

/-- C7 at the return of `lateOps`, followed by a second return by the same user. -/
theorem second_return_fails_witness :
    user_request_return lateState ⟨1, [3]⟩ 2000001 true = some (.noActiveIssue, lateState) :=
  (second_return_fails issuedState lateState ⟨1, [4]⟩ 2000000 true (.overdue 2604800)
    (by decide) rfl (by decide) ⟨1, [3]⟩ rfl 2000001 true).1

/-- C10 as stated fails: user 1 holds an active issue and is a current defaulter at 2600000
(flag set, `penaltyEnd = 2604800`); the request is refused with "You are a defaulter until"
(Forbidden), not with "You already have an active issued book" (Conflict). -/
theorem issue_while_holding_counterexample :
    Reachable lapsedState ∧ (1 : Int) ∈ lapsedState.users ∧
    user_has_active_issue lapsedState 1 = true ∧
    (user_request_issue lapsedState ⟨1, 0, "", 1⟩ 2600000 ⟨true, 3, true, none⟩).1 =
      .defaulterUntil 2604800 ∧
    (user_request_issue lapsedState ⟨1, 0, "", 1⟩ 2600000 ⟨true, 3, true, none⟩).1 ≠ .alreadyIssued :=
  ⟨⟨lapsedOps, rfl⟩, by decide, by decide, by decide, by decide⟩

/-- C10 (amended): for a registered user who already holds an active issue, `requestIssue` at
time `now` is refused and leaves the whole state (books, users, active issues, history) as it
is: with "You already have an active issued book" (Conflict) when the user is not a current
defaulter at `now`, and with "You are a defaulter until" (Forbidden) when the user is one, that
check coming first. -/
theorem issue_while_holding_refused (s : Library) (inp : IssueInput) (now : Int)
    (st : IssueStore) (hreg : inp.uid ∈ s.users)
    (hhold : user_has_active_issue s inp.uid = true) :
    ((userAt s inp.uid).isDefaulterAt now = false →
      user_request_issue s inp now st = (.alreadyIssued, s)) ∧
    ((userAt s inp.uid).isDefaulterAt now = true →
      user_request_issue s inp now st = (.defaulterUntil (userAt s inp.uid).penaltyEnd, s)) :=
  ⟨fun hd => issue_alreadyIssued s inp now st hreg (by simp [hd]) hhold,
    fun hd => issue_defaulter s inp now st hreg hd⟩

/-- C10 (amended) at a second request of user 1, who holds book 1 and was never late. -/
theorem issue_while_holding_refused_witness :
    user_request_issue issuedState ⟨1, 0, "", 1⟩ 5 ⟨true, 2, true, none⟩ =
      (.alreadyIssued, issuedState) :=
  (issue_while_holding_refused issuedState ⟨1, 0, "", 1⟩ 5 ⟨true, 2, true, none⟩ (by decide)
    (by decide)).1 (by decide)

/-- C12 at a failing input: in the state after `readyOps` (book 1 with both copies available, user
1 registered, without issue or penalty) user 1 asks for book 1 and the store rejects the
`INSERT INTO issued`.  The call passes every eligibility check and ends without a message; the
users and the active issues are as before, but `availableCopies` of book 1 has gone from 2 to 1. -/
theorem issue_insert_rejected_takes_copy :
    Reachable readyState ∧
    (userAt readyState 1).isDefaulterAt 0 = false ∧ user_has_active_issue readyState 1 = false ∧
    readyState.books.lookup 1 = some ⟨1, "T", "A", 2, 2, 0, 0⟩ ∧
    (user_request_issue readyState ⟨1, 0, "", 1⟩ 0 insertRejected).1 = .notPrepared ∧
    (user_request_issue readyState ⟨1, 0, "", 1⟩ 0 insertRejected).2.books.lookup 1 =
      some ⟨1, "T", "A", 2, 1, 0, 0⟩ ∧
    (user_request_issue readyState ⟨1, 0, "", 1⟩ 0 insertRejected).2.users = readyState.users ∧
    (user_request_issue readyState ⟨1, 0, "", 1⟩ 0 insertRejected).2.issued = readyState.issued :=
  ⟨⟨readyOps, rfl⟩, by decide, by decide, by decide, by decide, by decide, rfl, rfl⟩

/-- C13: `removeBook` ends with "Book not found." (NotFound) when the id is not in the catalog,
and with "Cannot remove; active issued copies exist." (Conflict) when the id is in the catalog and
some active record references it (in a reachable state every referenced id is in the catalog);
in both cases the state is left as it is.  Otherwise, the store accepting the delete, it ends with
"Book removed.", the catalog is the old one without that id (every other id is bound as before) and
the users, the active issues and the history are unchanged. -/
theorem remove_book_cases (s : Library) (book_id : Int) (execOk : Bool) :
    (book_id ∉ s.books → removeBook s book_id execOk = (.notFound, s)) ∧
    (book_id ∈ s.books → (∃ p ∈ s.issued.entries, p.2.book_id = book_id) →
      removeBook s book_id execOk = (.activeIssue, s)) ∧
    (Reachable s → (∃ p ∈ s.issued.entries, p.2.book_id = book_id) →
      removeBook s book_id execOk = (.activeIssue, s)) ∧
    (book_id ∈ s.books → (∀ p ∈ s.issued.entries, p.2.book_id ≠ book_id) → execOk = true →
      removeBook s book_id execOk = (.removed, { s with books := s.books.erase book_id }) ∧
      (removeBook s book_id execOk).2.books.lookup book_id = none ∧
      (∀ k, k ≠ book_id → (removeBook s book_id execOk).2.books.lookup k = s.books.lookup k) ∧
      (removeBook s book_id execOk).2.users = s.users ∧
      (removeBook s book_id execOk).2.issued = s.issued ∧
      (removeBook s book_id execOk).2.history = s.history) := by
  have hconf : book_id ∈ s.books → (∃ p ∈ s.issued.entries, p.2.book_id = book_id) →
      removeBook s book_id execOk = (.activeIssue, s) := by
    intro hm href
    unfold removeBook
    rw [if_neg (not_not.2 hm), if_pos ((referenced_iff s book_id).2 href)]
  refine ⟨?_, hconf, ?_, ?_⟩
  · intro hn
    unfold removeBook
    rw [if_pos hn]
  · rintro ⟨ops, hops⟩ href
    have inv := run_invariant IssuedBooksInCatalog applyOp_issuedBooksInCatalog ops _ s hops
      issuedBooksInCatalog_empty
    obtain ⟨p, hp, hpb⟩ := href
    exact hconf (by rw [← hpb]; exact inv p hp) ⟨p, hp, hpb⟩
  · intro hm hfree hok
    have hnot : ¬ s.issued.entries.any (fun p => p.2.book_id == book_id) = true := by
      intro h
      obtain ⟨p, hp, hpb⟩ := (referenced_iff s book_id).1 h
      exact hfree p hp hpb
    have hres : removeBook s book_id execOk =
        (.removed, { s with books := s.books.erase book_id }) := by
      unfold removeBook
      rw [if_neg (not_not.2 hm), if_neg hnot, if_pos hok]
    rw [hres]
    exact ⟨rfl, AList.lookup_erase book_id s.books, fun k hk => AList.lookup_erase_ne hk,
      rfl, rfl, rfl⟩

/-- C13 at three calls: book 7 is unknown in the state after `issuedOps`, book 1 is lent there,
and book 1 is free in the state after `readyOps`. -/
theorem remove_book_cases_witness :
    removeBook issuedState 7 true = (.notFound, issuedState) ∧
    removeBook issuedState 1 true = (.activeIssue, issuedState) ∧
    (removeBook readyState 1 true).1 = .removed ∧
    (removeBook readyState 1 true).2.books.lookup 1 = none ∧
    (removeBook readyState 1 true).2.users = readyState.users :=
  have h := (remove_book_cases readyState 1 true).2.2.2 (by decide) (by decide) rfl
  ⟨(remove_book_cases issuedState 7 true).1 (by decide),
    (remove_book_cases issuedState 1 true).2.2.1 ⟨issuedOps, rfl⟩ (by decide),
    by rw [h.1], h.2.1, h.2.2.2.1⟩

/-- C14: `removeUser` ends with "User not found." (NotFound) when the id is not registered, and
with "Cannot remove; user has active issued book." (Conflict) when the id is registered and some
active record belongs to it (in a reachable state every holder is registered); in both cases the
state is left as it is.  Otherwise, the store accepting the delete, it ends with "User removed.",
the users are the old ones without that id (every other id is bound as before) and the books, the
active issues and the history are unchanged. -/
theorem remove_user_cases (s : Library) (id : Int) (execOk : Bool) :
    (id ∉ s.users → removeUser s id execOk = (.notFound, s)) ∧
    (id ∈ s.users → (∃ p ∈ s.issued.entries, p.2.user_id = id) →
      removeUser s id execOk = (.activeIssue, s)) ∧
    (Reachable s → (∃ p ∈ s.issued.entries, p.2.user_id = id) →
      removeUser s id execOk = (.activeIssue, s)) ∧
    (id ∈ s.users → (∀ p ∈ s.issued.entries, p.2.user_id ≠ id) → execOk = true →
      removeUser s id execOk = (.removed, { s with users := s.users.erase id }) ∧
      (removeUser s id execOk).2.users.lookup id = none ∧
      (∀ k, k ≠ id → (removeUser s id execOk).2.users.lookup k = s.users.lookup k) ∧
      (removeUser s id execOk).2.books = s.books ∧
      (removeUser s id execOk).2.issued = s.issued ∧
      (removeUser s id execOk).2.history = s.history) := by
  have hconf : id ∈ s.users → (∃ p ∈ s.issued.entries, p.2.user_id = id) →
      removeUser s id execOk = (.activeIssue, s) := by
    intro hm href
    unfold removeUser
    rw [if_neg (not_not.2 hm), if_pos ((holds_iff s id).2 href)]
  refine ⟨?_, hconf, ?_, ?_⟩
  · intro hn
    unfold removeUser
    rw [if_pos hn]
  · rintro ⟨ops, hops⟩ href
    have inv := run_invariant IssuedUsersRegistered applyOp_issuedUsersRegistered ops _ s hops
      issuedUsersRegistered_empty
    obtain ⟨p, hp, hpu⟩ := href
    exact hconf (by rw [← hpu]; exact inv p hp) ⟨p, hp, hpu⟩
  · intro hm hfree hok
    have hnot : ¬ user_has_active_issue s id = true := by
      intro h
      obtain ⟨p, hp, hpu⟩ := (holds_iff s id).1 h
      exact hfree p hp hpu
    have hres : removeUser s id execOk =
        (.removed, { s with users := s.users.erase id }) := by
      unfold removeUser
      rw [if_neg (not_not.2 hm), if_neg hnot, if_pos hok]
    rw [hres]
    exact ⟨rfl, AList.lookup_erase id s.users, fun k hk => AList.lookup_erase_ne hk,
      rfl, rfl, rfl⟩

/-- C14 at three calls: user 7 is unknown in the state after `issuedOps`, user 1 holds a book
there, and user 1 holds nothing in the state after `readyOps`. -/
theorem remove_user_cases_witness :
    removeUser issuedState 7 true = (.notFound, issuedState) ∧
    removeUser issuedState 1 true = (.activeIssue, issuedState) ∧
    (removeUser readyState 1 true).1 = .removed ∧
    (removeUser readyState 1 true).2.users.lookup 1 = none ∧
    (removeUser readyState 1 true).2.books = readyState.books :=
  have h := (remove_user_cases readyState 1 true).2.2.2 (by decide) (by decide) rfl
  ⟨(remove_user_cases issuedState 7 true).1 (by decide),
    (remove_user_cases issuedState 1 true).2.2.1 ⟨issuedOps, rfl⟩ (by decide),
    by rw [h.1], h.2.1, h.2.2.2.1⟩

/-- C15 at a failing run: after `rejectedOps` (add book 1 with two copies, register user 1, a
request of user 1 for book 1 whose `INSERT INTO issued` the store rejects) every id handed out was
fresh, book 1 has `availableCopies = 1` and `totalCopies = 2`, and no active record references it:
one copy is neither on the shelf nor lent. -/
theorem copies_unaccounted_after_rejected_insert :
    run Library.empty rejectedOps = some rejectedState ∧
    holdsAlong freshIds Library.empty rejectedOps = true ∧
    rejectedState.books.lookup 1 = some ⟨1, "T", "A", 2, 1, 0, 0⟩ ∧
    activeCount rejectedState 1 = 0 ∧
    ¬ CopiesAccounted rejectedState :=
  ⟨rfl, by decide, by decide, by decide,
    fun h => absurd (h 1 ⟨1, "T", "A", 2, 1, 0, 0⟩ (by decide)) (by decide)⟩

/-- C16: in every state reached from the empty library by calls whose clock values do not
decrease, and for every time `now` that is not before any of these clock values (the latest of
them in particular), a user who is a defaulter at `now` (stored flag set and `now < penaltyEnd`)
has no active record; and every user listed by `listDefaulters` at `now` is listed with no active
issue under it. -/
theorem defaulter_holds_no_issue (ops : List Op) (s : Library) (now : Int)
    (hrun : run Library.empty ops = some s)
    (hmono : (timestamps ops).Pairwise (fun a b => a ≤ b))
    (hnow : ∀ t ∈ timestamps ops, t ≤ now) :
    (∀ p ∈ s.users.entries, p.2.isDefaulterAt now = true →
      ∀ q ∈ s.issued.entries, q.2.user_id ≠ p.1) ∧
    (∀ e ∈ listDefaulters s now, e.2 = []) := by
  have hD : NoDefaulterHolds s now := by
    cases hts : timestamps ops with
    | nil =>
      rw [hts] at hmono hnow
      exact run_noDefaulterHolds ops _ s now now hrun oneIssuePerUser_empty
        (noDefaulterHolds_empty now) (by rw [hts]; simp) (by rw [hts]; exact hmono)
        (by rw [hts]; exact hnow) (le_refl _)
    | cons a l =>
      rw [hts] at hmono hnow
      have ha := List.pairwise_cons.1 hmono
      refine run_noDefaulterHolds ops _ s a now hrun oneIssuePerUser_empty
        (noDefaulterHolds_empty a) ?_ (by rw [hts]; exact hmono) (by rw [hts]; exact hnow)
        (hnow a (List.mem_cons_self _ _))
      rw [hts]
      intro t ht
      rcases List.mem_cons.1 ht with ht | ht
      · rw [ht]
      · exact ha.1 t ht
  have hids : UserIdsAgree s :=
    run_invariant UserIdsAgree applyOp_userIdsAgree ops _ s hrun userIdsAgree_empty
  have hfree : ∀ p ∈ s.users.entries, p.2.isDefaulterAt now = true →
      ∀ q ∈ s.issued.entries, q.2.user_id ≠ p.1 := by
    intro p hp hd q hq
    have hno := hD p.1 p.2 (lookup_of_mem_entries _ p hp) hd
    exact user_has_active_issue_false s p.1 (by simp [hno]) q.1 q.2
      (lookup_of_mem_entries _ q hq)
  refine ⟨hfree, ?_⟩
  intro e he
  unfold listDefaulters at he
  rw [List.mem_map] at he
  obtain ⟨p, hp, hpe⟩ := he
  rw [List.mem_filter] at hp
  rw [← hpe]
  simp only
  rw [List.filter_eq_nil_iff]
  intro q hq hqu
  have hid : p.2.id = p.1 := hids p.1 p.2 (lookup_of_mem_entries _ p hp.1)
  rw [hid] at hqu
  exact hfree p hp.1 hp.2 q hq (by simpa using hqu)

/-- C16 at the state after `lateOps`, whose clock values are 0 and 2000000: at time 2000000 user
1 is the only defaulter and is listed without an active issue. -/
theorem defaulter_holds_no_issue_witness :
    timestamps lateOps = [0, 2000000] ∧
    listDefaulters lateState 2000000 = [(⟨1, "ann", true, 2604800⟩, [])] ∧
    (∀ e ∈ listDefaulters lateState 2000000, e.2 = []) :=
  ⟨by decide, by decide,
    (defaulter_holds_no_issue lateOps lateState 2000000 rfl (by decide) (by decide)).2⟩

end LibrarySystem
